import Mathlib

/-!
Verification of the py-to-proto schema-to-descriptor conversion engine.

This file is a shallow embedding of the core of the repository:

* `src/py_to_proto/utils.py` — `to_upper_camel`, `safe_add_fd_to_pool` and the
  structural-equivalence comparators `_are_same_file_descriptors`,
  `_are_same_enum_descriptor`, `_check_message_descs_alignment`,
  `_check_service_desc_alignment`, `_are_same_service_descriptor`,
  `_are_same_method_descriptor`, `_are_types_similar`,
  `_are_same_message_descriptor`;
* `src/py_to_proto/converter_base.py` — the recursive converter
  (`ConverterBase._convert`, `_convert_concrete_type`, `_convert_map`,
  `_convert_enum`, `_convert_message`) and the file-descriptor materialization
  in `ConverterBase.__init__`;
* `src/py_to_proto/jtd_to_proto.py` — the JTD adapter (`JTDConverter`) and the
  `jtd_to_proto` entry point;
* `src/py_to_proto/dataclass_to_proto.py` — `DataclassConverter.get_enum_vals`
  (the zero-value placeholder logic).

Conventions of the embedding:

* Protobuf descriptor protos are modelled as records of exactly the fields the
  source reads or writes; unset proto fields read as their proto default
  (`0` / `""` / `false`), matching python protobuf semantics.  `oneof_index`
  has explicit presence in `descriptor.proto`, hence `Option Nat`.
* Python dicts keyed by name are modelled as lists; value lookup is
  last-occurrence-wins (python dict construction by comprehension overwrites on
  duplicate keys) and `.keys()` equality of two dicts is set equality of the
  name lists.
* Raised exceptions become `Except.error` with a structured error code.
* The mutually recursive converter is written with an explicit fuel argument;
  every theorem about it is conditioned on the conversion succeeding, so the
  fuel never weakens a statement.
-/

namespace PyToProto

/-! ## Protobuf descriptor data model -/

/-- Model of `descriptor_pb2.FieldDescriptorProto` restricted to the fields the
repository reads/writes.  `label`/`type` carry the raw proto enum numbers
(`LABEL_OPTIONAL = 1`, `LABEL_REPEATED = 3`; `TYPE_DOUBLE = 1`, `TYPE_FLOAT = 2`,
`TYPE_INT64 = 3`, `TYPE_UINT64 = 4`, `TYPE_INT32 = 5`, `TYPE_BOOL = 8`,
`TYPE_STRING = 9`, `TYPE_MESSAGE = 11`, `TYPE_BYTES = 12`, `TYPE_UINT32 = 13`,
`TYPE_ENUM = 14`).  Unset fields default to 0/empty as in proto. -/
structure FieldDescriptorProto where
  name : String := ""
  number : Nat := 0
  label : Nat := 0
  type : Nat := 0
  type_name : String := ""
  oneof_index : Option Nat := none
  deriving Repr, DecidableEq, Inhabited

/-- Model of `descriptor_pb2.EnumValueDescriptorProto`. -/
structure EnumValueDescriptorProto where
  name : String := ""
  number : Int := 0
  deriving Repr, DecidableEq, Inhabited

/-- Model of `descriptor_pb2.EnumDescriptorProto`; `allow_alias` stands for
`options.allow_alias`. -/
structure EnumDescriptorProto where
  name : String := ""
  value : List EnumValueDescriptorProto := []
  allow_alias : Bool := false
  deriving Repr, DecidableEq, Inhabited

/-- Model of `descriptor_pb2.DescriptorProto`; `map_entry` stands for
`options.map_entry`.  Recursive through `nested_type`, hence an inductive with
explicit projections below. -/
inductive DescriptorProto where
  | mk (name : String) (field : List FieldDescriptorProto)
      (nested_type : List DescriptorProto) (enum_type : List EnumDescriptorProto)
      (oneof_decl : List String) (map_entry : Bool)
  deriving Repr, Inhabited

def DescriptorProto.name : DescriptorProto → String
  | .mk n _ _ _ _ _ => n

def DescriptorProto.field : DescriptorProto → List FieldDescriptorProto
  | .mk _ f _ _ _ _ => f

def DescriptorProto.nested_type : DescriptorProto → List DescriptorProto
  | .mk _ _ nt _ _ _ => nt

def DescriptorProto.enum_type : DescriptorProto → List EnumDescriptorProto
  | .mk _ _ _ et _ _ => et

def DescriptorProto.oneof_decl : DescriptorProto → List String
  | .mk _ _ _ _ od _ => od

def DescriptorProto.map_entry : DescriptorProto → Bool
  | .mk _ _ _ _ _ me => me

/-- `MergeFrom(DescriptorProto(name=...))` on a message proto: replaces the
singular `name` field only. -/
def DescriptorProto.withName : DescriptorProto → String → DescriptorProto
  | .mk _ f nt et od me, n => .mk n f nt et od me

@[simp] theorem DescriptorProto.name_mk (n f nt et od me) :
    (DescriptorProto.mk n f nt et od me).name = n := rfl
@[simp] theorem DescriptorProto.field_mk (n f nt et od me) :
    (DescriptorProto.mk n f nt et od me).field = f := rfl
@[simp] theorem DescriptorProto.nested_type_mk (n f nt et od me) :
    (DescriptorProto.mk n f nt et od me).nested_type = nt := rfl
@[simp] theorem DescriptorProto.enum_type_mk (n f nt et od me) :
    (DescriptorProto.mk n f nt et od me).enum_type = et := rfl
@[simp] theorem DescriptorProto.oneof_decl_mk (n f nt et od me) :
    (DescriptorProto.mk n f nt et od me).oneof_decl = od := rfl
@[simp] theorem DescriptorProto.map_entry_mk (n f nt et od me) :
    (DescriptorProto.mk n f nt et od me).map_entry = me := rfl
@[simp] theorem DescriptorProto.withName_mk (n f nt et od me n') :
    (DescriptorProto.mk n f nt et od me).withName n' = .mk n' f nt et od me := rfl

/-- Model of `descriptor_pb2.MethodOptions` (compared for equality by
`_are_same_method_descriptor`; the repository never sets any of its fields). -/
structure MethodOptions where
  deprecated : Bool := false
  idempotency_level : Nat := 0
  deriving Repr, DecidableEq, Inhabited

/-- Model of `descriptor_pb2.MethodDescriptorProto`. -/
structure MethodDescriptorProto where
  name : String := ""
  input_type : String := ""
  output_type : String := ""
  options : MethodOptions := {}
  client_streaming : Bool := false
  server_streaming : Bool := false
  deriving Repr, DecidableEq, Inhabited

/-- Model of `descriptor_pb2.ServiceDescriptorProto`. -/
structure ServiceDescriptorProto where
  name : String := ""
  method : List MethodDescriptorProto := []
  deriving Repr, DecidableEq, Inhabited

/-- Model of `descriptor_pb2.FileDescriptorProto` restricted to the fields the
repository reads (`syntax` is write-only in the source and never compared). -/
structure FileDescriptorProto where
  name : String := ""
  package : String := ""
  dependency : List String := []
  message_type : List DescriptorProto := []
  enum_type : List EnumDescriptorProto := []
  service : List ServiceDescriptorProto := []
  deriving Repr, Inhabited

/-! ## `utils.to_upper_camel` -/

/-- One left-to-right pass of `re.sub("_([a-zA-Z])", upper(group 1), s)`:
each non-overlapping occurrence of an underscore followed by an ASCII letter is
replaced by the upper-cased letter. -/
def camelSub : List Char → List Char
  | [] => []
  | '_' :: c :: rest =>
      if c.isAlpha then c.toUpper :: camelSub rest
      else '_' :: camelSub (c :: rest)
  | c :: rest => c :: camelSub rest

/-- `utils.to_upper_camel`: upper-case the first character and append the
regex-substituted string minus its first character. -/
def toUpperCamel (s : String) : String :=
  match s.data with
  | [] => s
  | c :: _ => String.mk (c.toUpper :: (camelSub s.data).drop 1)

theorem toUpperCamel_foo_bar : toUpperCamel "foo_bar" = "FooBar" := by decide

theorem toUpperCamel_biz : toUpperCamel "biz" = "Biz" := by decide

theorem toUpperCamel_empty : toUpperCamel "" = "" := by decide

/-! ## Python-dict modelling helpers

The comparators in `utils.py` build dicts `{x.name: x for x in container}` and
then compare `.keys()` views and look values up by name.  A dict built by such
a comprehension keeps, for each name, the **last** element with that name, and
`.keys() == .keys()` on two dicts is set equality of the name lists.  Iterating
the keys and taking the conjunction of a per-key check gives the same boolean
for any iteration order or multiplicity, so the key list is used directly. -/

/-- Last-occurrence-wins lookup, as in a python dict comprehension keyed by
`key`. -/
def dictGet (key : α → String) (xs : List α) (k : String) : Option α :=
  xs.reverse.find? (fun x => key x == k)

/-- `d1.keys() == d2.keys()` on python dicts: set equality of the key lists. -/
def sameNameSet (ks1 ks2 : List String) : Bool :=
  ks1.all (ks2.contains ·) && ks2.all (ks1.contains ·)

theorem sameNameSet_refl (ks : List String) : sameNameSet ks ks = true := by
  simp [sameNameSet, List.all_eq_true]

theorem dictGet_mem {key : α → String} {xs : List α} {k : String} {x : α}
    (h : dictGet key xs k = some x) : x ∈ xs ∧ key x = k := by
  have hmem := List.mem_of_find?_eq_some h
  have hkey := List.find?_some h
  exact ⟨(List.mem_reverse).1 hmem, by simpa using hkey⟩

theorem dictGet_isSome_of_mem {key : α → String} {xs : List α} {x : α}
    (hx : x ∈ xs) : ∃ y, dictGet key xs (key x) = some y := by
  have : (xs.reverse.find? (fun y => key y == key x)).isSome := by
    apply List.find?_isSome.2
    exact ⟨x, by simpa using hx, by simp⟩
  rcases Option.isSome_iff_exists.1 this with ⟨y, hy⟩
  exact ⟨y, hy⟩

theorem key_mem_of_dictGet {key : α → String} {xs : List α} {k : String} {x : α}
    (h : dictGet key xs k = some x) : k ∈ xs.map key := by
  rcases dictGet_mem h with ⟨hmem, hkey⟩
  exact hkey ▸ List.mem_map_of_mem key hmem

/-! ## `utils.py` structural-equivalence comparators -/

/-- `utils._are_types_similar`: type names equal up to stripping all leading
dots (`str.lstrip(".")`). -/
def areTypesSimilar (t1 t2 : String) : Bool :=
  String.mk (t1.data.dropWhile (· == '.')) == String.mk (t2.data.dropWhile (· == '.'))

/-- `utils._are_same_method_descriptor`. -/
def areSameMethodDescriptor (m1 m2 : MethodDescriptorProto) : Bool :=
  areTypesSimilar m1.input_type m2.input_type &&
  areTypesSimilar m1.output_type m2.output_type &&
  decide (m1.options = m2.options) &&
  (m1.client_streaming == m2.client_streaming) &&
  (m1.server_streaming == m2.server_streaming)

/-- `utils._are_same_service_descriptor`: name-keyed comparison of the method
lists. -/
def areSameServiceDescriptor (s1 s2 : ServiceDescriptorProto) : Bool :=
  let ks1 := s1.method.map (·.name)
  let ks2 := s2.method.map (·.name)
  sameNameSet ks1 ks2 &&
  ks1.all fun k =>
    match dictGet (·.name) s1.method k, dictGet (·.name) s2.method k with
    | some m1, some m2 => areSameMethodDescriptor m1 m2
    | _, _ => true

/-- `utils._check_service_desc_alignment`. -/
def checkServiceDescAlignment (l1 l2 : List ServiceDescriptorProto) : Bool :=
  let ks1 := l1.map (·.name)
  let ks2 := l2.map (·.name)
  sameNameSet ks1 ks2 &&
  ks1.all fun k =>
    match dictGet (·.name) l1 k, dictGet (·.name) l2 k with
    | some s1, some s2 => areSameServiceDescriptor s1 s2
    | _, _ => true

/-- Value-list part of `utils._are_same_enum_descriptor`: same length, and the
(name, number) pairs agree pointwise in order. -/
def areSameEnumValueLists (v1 v2 : List EnumValueDescriptorProto) : Bool :=
  (v1.length == v2.length) &&
  (v1.zip v2).all fun p => p.1.name == p.2.name && decide (p.1.number = p.2.number)

/-- `utils._are_same_enum_descriptor`: name-keyed comparison of two iterables of
enum descriptor protos. -/
def areSameEnumDescriptors (es1 es2 : List EnumDescriptorProto) : Bool :=
  let ks1 := es1.map (·.name)
  let ks2 := es2.map (·.name)
  sameNameSet ks1 ks2 &&
  ks1.all fun k =>
    match dictGet (·.name) es1 k, dictGet (·.name) es2 k with
    | some e1, some e2 => areSameEnumValueLists e1.value e2.value
    | _, _ => true

/-- Field-level check inside `utils._are_same_message_descriptor`: two fields
with the same name are considered equal when their `label` and `type` agree
(numbers and referenced type names are deliberately not compared). -/
def fieldsAgreeByName (fs1 fs2 : List FieldDescriptorProto) : Bool :=
  sameNameSet (fs1.map (·.name)) (fs2.map (·.name)) &&
  (fs1.map (·.name)).all fun k =>
    match dictGet (·.name) fs1 k, dictGet (·.name) fs2 k with
    | some f1, some f2 => (f1.label == f2.label) && (f1.type == f2.type)
    | _, _ => true

mutual

/-- `utils._are_same_message_descriptor`: nested-enum check, then name-keyed
field check on `label`/`type`, then (only when either side has nested types)
recursive alignment of the nested message lists. -/
def areSameMessageDescriptor : DescriptorProto → DescriptorProto → Bool
  | .mk _ fs1 ns1 es1 _ _, .mk _ fs2 ns2 es2 _ _ =>
    areSameEnumDescriptors es1 es2 &&
    fieldsAgreeByName fs1 fs2 &&
    (if ns1.isEmpty && ns2.isEmpty then true
     else checkMessageDescsAlignment ns1 ns2)
termination_by d1 d2 => (sizeOf d1, 0)
decreasing_by
  apply Prod.Lex.left
  simp
  omega

/-- `utils._check_message_descs_alignment`: name-keyed comparison of two
message descriptor lists. -/
def checkMessageDescsAlignment (l1 l2 : List DescriptorProto) : Bool :=
  sameNameSet (l1.map DescriptorProto.name) (l2.map DescriptorProto.name) &&
  msgAlignKeys l1 l2 (l1.map DescriptorProto.name)
termination_by (sizeOf l1, sizeOf (l1.map DescriptorProto.name) + 1)
decreasing_by
  apply Prod.Lex.right
  omega

/-- The per-key loop of `utils._check_message_descs_alignment`. -/
def msgAlignKeys (l1 l2 : List DescriptorProto) : List String → Bool
  | [] => true
  | k :: ks =>
    (match h1 : dictGet DescriptorProto.name l1 k,
           dictGet DescriptorProto.name l2 k with
     | some m1, some m2 => areSameMessageDescriptor m1 m2
     | _, _ => true) &&
    msgAlignKeys l1 l2 ks
termination_by ks => (sizeOf l1, sizeOf ks)
decreasing_by
  · apply Prod.Lex.left
    exact List.sizeOf_lt_of_mem (dictGet_mem h1).1
  · apply Prod.Lex.right
    simp

end

/-- `utils._are_same_file_descriptors`: dependency lists, package, enums,
messages and services must all align. -/
def areSameFileDescriptors (d1 d2 : FileDescriptorProto) : Bool :=
  (d1.dependency == d2.dependency) &&
  (d1.package == d2.package) &&
  areSameEnumDescriptors d1.enum_type d2.enum_type &&
  checkMessageDescsAlignment d1.message_type d2.message_type &&
  checkServiceDescAlignment d1.service d2.service

/-! ### Reflexivity of the structural-equivalence check

Re-registering an identical file proto must be detected as "same", so every
comparator is reflexive. -/

theorem areTypesSimilar_refl (t : String) : areTypesSimilar t t = true := by
  simp [areTypesSimilar]

theorem areSameMethodDescriptor_refl (m : MethodDescriptorProto) :
    areSameMethodDescriptor m m = true := by
  simp [areSameMethodDescriptor, areTypesSimilar_refl]

theorem areSameServiceDescriptor_refl (s : ServiceDescriptorProto) :
    areSameServiceDescriptor s s = true := by
  simp only [areSameServiceDescriptor, sameNameSet_refl, Bool.true_and]
  rw [List.all_eq_true]
  intro k _
  cases h : dictGet (·.name) s.method k with
  | none => simp
  | some m => simp [areSameMethodDescriptor_refl]

theorem checkServiceDescAlignment_refl (l : List ServiceDescriptorProto) :
    checkServiceDescAlignment l l = true := by
  simp only [checkServiceDescAlignment, sameNameSet_refl, Bool.true_and]
  rw [List.all_eq_true]
  intro k _
  cases h : dictGet (·.name) l k with
  | none => simp
  | some s => simp [areSameServiceDescriptor_refl]

theorem areSameEnumValueLists_refl (v : List EnumValueDescriptorProto) :
    areSameEnumValueLists v v = true := by
  simp only [areSameEnumValueLists, beq_self_eq_true, Bool.true_and]
  induction v with
  | nil => rfl
  | cons x xs ih => simpa using ih

theorem areSameEnumDescriptors_refl (es : List EnumDescriptorProto) :
    areSameEnumDescriptors es es = true := by
  simp only [areSameEnumDescriptors, sameNameSet_refl, Bool.true_and]
  rw [List.all_eq_true]
  intro k _
  cases h : dictGet (·.name) es k with
  | none => simp
  | some e => simp [areSameEnumValueLists_refl]

theorem fieldsAgreeByName_refl (fs : List FieldDescriptorProto) :
    fieldsAgreeByName fs fs = true := by
  simp only [fieldsAgreeByName, sameNameSet_refl, Bool.true_and]
  rw [List.all_eq_true]
  intro k _
  cases h : dictGet (·.name) fs k with
  | none => simp
  | some f => simp

theorem msgAlignKeys_self (l : List DescriptorProto)
    (ih : ∀ m ∈ l, areSameMessageDescriptor m m = true) :
    ∀ ks, msgAlignKeys l l ks = true := by
  intro ks
  induction ks with
  | nil => rw [msgAlignKeys]
  | cons k ks ihk =>
    rw [msgAlignKeys]
    cases h : dictGet DescriptorProto.name l k with
    | none => simpa using ihk
    | some m =>
      have hm := ih m (dictGet_mem h).1
      simp [h, hm, ihk]

theorem checkMessageDescsAlignment_self (l : List DescriptorProto)
    (ih : ∀ m ∈ l, areSameMessageDescriptor m m = true) :
    checkMessageDescsAlignment l l = true := by
  rw [checkMessageDescsAlignment]
  simp [sameNameSet_refl, msgAlignKeys_self l ih]

theorem areSameMessageDescriptor_refl_aux :
    ∀ (n : Nat) (d : DescriptorProto), sizeOf d ≤ n →
      areSameMessageDescriptor d d = true := by
  intro n
  induction n with
  | zero =>
    intro d hd
    cases d with
    | mk nm fs ns es od me => simp at hd
  | succ n ihn =>
    intro d hd
    cases d with
    | mk nm fs ns es od me =>
      rw [areSameMessageDescriptor]
      have hnested : checkMessageDescsAlignment ns ns = true := by
        apply checkMessageDescsAlignment_self
        intro m hm
        apply ihn
        have h1 : sizeOf m < sizeOf ns := List.sizeOf_lt_of_mem hm
        have h2 : sizeOf ns < sizeOf (DescriptorProto.mk nm fs ns es od me) := by
          simp; omega
        omega
      simp [areSameEnumDescriptors_refl, fieldsAgreeByName_refl, hnested]

theorem areSameMessageDescriptor_refl (d : DescriptorProto) :
    areSameMessageDescriptor d d = true :=
  areSameMessageDescriptor_refl_aux (sizeOf d) d le_rfl

theorem areSameFileDescriptors_refl (fd : FileDescriptorProto) :
    areSameFileDescriptors fd fd = true := by
  simp [areSameFileDescriptors, areSameEnumDescriptors_refl,
    checkServiceDescAlignment_refl,
    checkMessageDescsAlignment_self _ (fun m _ => areSameMessageDescriptor_refl m)]

/-! ## JTD schema nodes and structured errors -/

/-- Model of one node of a JTD schema dict, holding exactly the keys the
`JTDConverter` adapter reads.  `none`/`[]`/`false` stands for an absent key;
`fieldNumber` models `metadata.field_number`. -/
inductive JTDNode where
  | mk (type : Option String) (values : Option JTDNode)
      (enum : Option (List String))
      (properties : List (String × JTDNode))
      (optionalProperties : List (String × JTDNode))
      (additionalProperties : Bool)
      (fieldNumber : Option Nat)
      (discriminator : Option String)
      (mapping : List (String × JTDNode))
      (elements : Option JTDNode)
  deriving Repr, Inhabited

def JTDNode.type : JTDNode → Option String
  | .mk t _ _ _ _ _ _ _ _ _ => t
def JTDNode.values : JTDNode → Option JTDNode
  | .mk _ v _ _ _ _ _ _ _ _ => v
def JTDNode.enum : JTDNode → Option (List String)
  | .mk _ _ e _ _ _ _ _ _ _ => e
def JTDNode.properties : JTDNode → List (String × JTDNode)
  | .mk _ _ _ p _ _ _ _ _ _ => p
def JTDNode.optionalProperties : JTDNode → List (String × JTDNode)
  | .mk _ _ _ _ op _ _ _ _ _ => op
def JTDNode.additionalProperties : JTDNode → Bool
  | .mk _ _ _ _ _ ap _ _ _ _ => ap
def JTDNode.fieldNumber : JTDNode → Option Nat
  | .mk _ _ _ _ _ _ fn _ _ _ => fn
def JTDNode.discriminator : JTDNode → Option String
  | .mk _ _ _ _ _ _ _ d _ _ => d
def JTDNode.mapping : JTDNode → List (String × JTDNode)
  | .mk _ _ _ _ _ _ _ _ m _ => m
def JTDNode.elements : JTDNode → Option JTDNode
  | .mk _ _ _ _ _ _ _ _ _ el => el

/-- Structured model of the exceptions the embedded code raises. -/
inductive ConvErr where
  /-- `TypeError` from `safe_add_fd_to_pool`: same file name, different
  content (carries the file name). -/
  | conflict (fileName : String)
  /-- `ValueError("Got unsupported entry type ...")` from
  `ConverterBase._convert` (carries the offending node, printed in the
  message). -/
  | unsupportedEntry (entry : JTDNode)
  /-- `ValueError("Invalid type specifier: ...")` from
  `ConverterBase._convert_concrete_type`. -/
  | invalidTypeSpecifier (typeName : String)
  /-- `ValueError("Cannot specify 'additionalProperties' ...")` from
  `ConverterBase._convert_message`. -/
  | additionalPropertiesClash
  /-- `ValueError("Provided type mapping has no key for 'string' ...")` from
  `JTDConverter.get_map_key_val_types`. -/
  | stringKeyMissing
  /-- `ValueError("Only messages and enums are supported")` from
  `ConverterBase.__init__`. -/
  | onlyMessagesEnums
  /-- `KeyError` from the final `FindMessageTypeByName`/`FindEnumTypeByName`
  lookup. -/
  | notFound (fullName : String)
  /-- Artifact of the fuelled embedding: recursion budget exhausted (the
  python recursion has no such case; all theorems are conditioned on
  success or use enough fuel). -/
  | outOfFuel
  deriving Repr, Inhabited

/-! ## Descriptor pool and `utils.safe_add_fd_to_pool` -/

/-- Model of a `descriptor_pool.DescriptorPool`: the file descriptor protos
added so far, in insertion order (file names are unique in a real pool). -/
structure DescriptorPool where
  files : List FileDescriptorProto := []
  deriving Repr, Inhabited

/-- `pool.FindFileByName`, returning `none` for the `KeyError` case. -/
def DescriptorPool.findFile (pool : DescriptorPool) (name : String) :
    Option FileDescriptorProto :=
  pool.files.find? (fun f => f.name == name)

/-- `utils.safe_add_fd_to_pool`: if a file of the same name exists, compare
structurally and either no-op or raise a conflict; otherwise add the file.
(`existing_fd.CopyToProto` is modelled as returning the stored proto; the
comparators never look at the type-name fields a real round-trip would
qualify.) -/
def safeAddFdToPool (fd : FileDescriptorProto) (pool : DescriptorPool) :
    Except ConvErr DescriptorPool :=
  match pool.findFile fd.name with
  | some existing =>
      if areSameFileDescriptors fd existing then .ok pool
      else .error (.conflict fd.name)
  | none => .ok ⟨pool.files ++ [fd]⟩

/-- Adding the same file proto twice is a no-op on the second call. -/
theorem safeAddFdToPool_idem {fd : FileDescriptorProto} {pool pool' : DescriptorPool}
    (h : safeAddFdToPool fd pool = .ok pool') :
    safeAddFdToPool fd pool' = .ok pool' := by
  unfold safeAddFdToPool at h ⊢
  cases hfind : pool.findFile fd.name with
  | some existing =>
    simp only [hfind] at h
    by_cases hsame : areSameFileDescriptors fd existing = true
    · simp only [hsame, if_true] at h
      cases h
      simp [hfind, hsame]
    · simp [hsame] at h
  | none =>
    simp only [hfind] at h
    cases h
    have hfind' : DescriptorPool.findFile ⟨pool.files ++ [fd]⟩ fd.name = some fd := by
      unfold DescriptorPool.findFile at hfind ⊢
      rw [List.find?_append, hfind]
      simp
    simp [hfind', areSameFileDescriptors_refl]

/-! ## JTD adapter (`jtd_to_proto.JTDConverter`) -/

/-- Value of the `JTD_TO_PROTO_TYPES` mapping: either a proto scalar type code
or a well-known message class (carrying the short name, full name and owning
file of its descriptor). -/
inductive ProtoTypeVal where
  | scalar (code : Nat)
  | wellKnown (shortName fullName fileName : String)
  deriving Repr, DecidableEq

/-- The default `JTD_TO_PROTO_TYPES` mapping of `jtd_to_proto.py` (the entry
points are modelled with this default `type_mapping`). -/
def jtdTypeMapping : String → Option ProtoTypeVal
  | "any" => some (.wellKnown "Any" "google.protobuf.Any" "google/protobuf/any.proto")
  | "boolean" => some (.scalar 8)
  | "string" => some (.scalar 9)
  | "timestamp" =>
      some (.wellKnown "Timestamp" "google.protobuf.Timestamp"
        "google/protobuf/timestamp.proto")
  | "float32" => some (.scalar 2)
  | "float64" => some (.scalar 1)
  | "int8" => some (.scalar 5)
  | "uint8" => some (.scalar 13)
  | "int16" => some (.scalar 5)
  | "uint16" => some (.scalar 13)
  | "int32" => some (.scalar 5)
  | "uint32" => some (.scalar 13)
  | "int64" => some (.scalar 3)
  | "uint64" => some (.scalar 4)
  | "bytes" => some (.scalar 12)
  | _ => none

/-- `ConverterBase.ConvertOutputTypes`: what `_convert` can return.  External
descriptor references carry short name, full name and owning file name. -/
inductive ConvertOutput where
  | scalar (code : Nat)
  | extMessage (shortName fullName fileName : String)
  | extEnum (shortName fullName fileName : String)
  | nestedMsg (d : DescriptorProto)
  | nestedEnum (e : EnumDescriptorProto)
  deriving Repr, Inhabited

/-- `self.imports.add(f)`: the import accumulator is a set, modelled as a
duplicate-free list in insertion order. -/
def addImport (imps : List String) (f : String) : List String :=
  if imps.contains f then imps else imps ++ [f]

/-- Python truthiness of `JTDConverter.get_concrete_type` (`entry.get("type")`):
a present, non-empty string. -/
def truthyType (entry : JTDNode) : Bool :=
  match entry.type with
  | some t => t != ""
  | none => false

/-- First-match lookup in a python dict modelled as an association list (the
source dicts have unique keys). -/
def lookupDict (xs : List (String × JTDNode)) (k : String) : Option JTDNode :=
  (xs.find? (·.1 == k)).map (·.2)

/-- `{**properties, **optionalProperties}` from
`JTDConverter.get_message_fields`: keys of `properties` in order (values
overridden by `optionalProperties` where both define the key), then the keys
of `optionalProperties` not in `properties`, in order. -/
def mergedFields (entry : JTDNode) : List (String × JTDNode) :=
  let ps := entry.properties
  let qs := entry.optionalProperties
  (ps.map fun p => (p.1, (lookupDict qs p.1).getD p.2)) ++
    qs.filter (fun q => !(ps.any (·.1 == q.1)))

/-- `JTDConverter.get_optional_field_names`: the keys of
`optionalProperties`. -/
def optionalFieldNames (entry : JTDNode) : List String :=
  entry.optionalProperties.map (·.1)

/-- `JTDConverter.get_field_number`: the explicit `metadata.field_number` if
present, else `num_fields + 1`. -/
def getFieldNumber (numFields : Nat) (fieldDef : JTDNode) : Nat :=
  fieldDef.fieldNumber.getD (numFields + 1)

/-- `JTDConverter.is_repeated_field`: `"elements" in field_def`. -/
def isRepeatedField (fieldDef : JTDNode) : Bool :=
  fieldDef.elements.isSome

/-! ## `ConverterBase` pure pieces: maps, enums, hoisting, message assembly -/

/-- `ConverterBase._convert_map`: build the synthetic `{Name}Entry` map-entry
submessage with `key` (number 1) and `value` (number 2), embedding a fresh
nested draft inside the entry when the value type is itself a draft. -/
def convertMapProto (name : String) (keyType : Nat) (valType : ConvertOutput) :
    DescriptorProto :=
  let nestedClsName := toUpperCamel name ++ "Entry"
  let keyField : FieldDescriptorProto := { name := "key", type := keyType, number := 1 }
  match valType with
  | .scalar c =>
      .mk nestedClsName [keyField, { name := "value", number := 2, type := c }]
        [] [] [] true
  | .extEnum shortName _ _ =>
      .mk nestedClsName
        [keyField, { name := "value", number := 2, type := 14, type_name := shortName }]
        [] [] [] true
  | .extMessage shortName _ _ =>
      .mk nestedClsName
        [keyField, { name := "value", number := 2, type := 11, type_name := shortName }]
        [] [] [] true
  | .nestedEnum e =>
      .mk nestedClsName
        [keyField, { name := "value", number := 2, type := 14, type_name := e.name }]
        [] [e] [] true
  | .nestedMsg d =>
      .mk nestedClsName
        [keyField, { name := "value", number := 2, type := 11, type_name := d.name }]
        [d] [] [] true

/-- `ConverterBase._convert_enum` applied to already-extracted entries:
`allow_alias` is set when the value numbers are not all distinct. -/
def convertEnumProto (enumName : String) (entries : List (String × Int)) :
    EnumDescriptorProto :=
  { name := enumName
    value := entries.map fun e => { name := e.1, number := e.2 }
    allow_alias := ((entries.map (·.2)).eraseDups.length != entries.length) }

/-- `JTDConverter.get_enum_vals`: enumerate the names starting at 0. -/
def jtdEnumVals (names : List String) : List (String × Int) :=
  names.enum.map fun p => (p.2, (p.1 : Int))

/-- `DataclassConverter.get_enum_vals`, applied to the `(name, value)` pairs of
a python `Enum`: prepend `PLACEHOLDER_UNSET = 0` when no member has value 0. -/
def dataclassGetEnumVals (members : List (String × Int)) : List (String × Int) :=
  if (members.map (·.2)).contains 0 then members
  else ("PLACEHOLDER_UNSET", 0) :: members

/-- One `MergeFrom(FieldDescriptorProto(type_name=new))` rewrite pass over the
entry's fields, applied to fields whose `type_name` equals the popped draft's
old name (`_convert_message`, map-entry hoisting). -/
def rewriteFieldTypeNames (old new : String) (fs : List FieldDescriptorProto) :
    List FieldDescriptorProto :=
  fs.map fun f => if f.type_name == old then { f with type_name := new } else f

/-- The `while nested.nested_type:` pop-loop of `_convert_message`: the input
list is the entry's nested messages in pop order (reverse of declaration
order).  Returns the rewritten entry fields and the renamed hoisted drafts in
pop order. -/
def hoistMsgLoop (fieldName : String) :
    List DescriptorProto → List FieldDescriptorProto →
    List FieldDescriptorProto × List DescriptorProto
  | [], fs => (fs, [])
  | t :: rest, fs =>
      let newName := toUpperCamel (fieldName ++ "_" ++ t.name)
      let fs' := rewriteFieldTypeNames t.name newName fs
      let r := hoistMsgLoop fieldName rest fs'
      (r.1, t.withName newName :: r.2)

/-- The `while nested.enum_type:` pop-loop of `_convert_message`. -/
def hoistEnumLoop (fieldName : String) :
    List EnumDescriptorProto → List FieldDescriptorProto →
    List FieldDescriptorProto × List EnumDescriptorProto
  | [], fs => (fs, [])
  | t :: rest, fs =>
      let newName := toUpperCamel (fieldName ++ "_" ++ t.name)
      let fs' := rewriteFieldTypeNames t.name newName fs
      let r := hoistEnumLoop fieldName rest fs'
      (r.1, { t with name := newName } :: r.2)

/-- Map-entry hoisting in `_convert_message` (lines 535-568): pop every nested
message draft, then every nested enum draft, out of the freshly built map-entry
submessage, renaming each to `UpperCamel(fieldName_oldName)` and rewriting the
entry's field references to the new names.  Returns the mutated entry and the
hoisted drafts in pop order. -/
def hoistEntry (fieldName : String) (d : DescriptorProto) :
    DescriptorProto × List DescriptorProto × List EnumDescriptorProto :=
  match d with
  | .mk n fs nt et od me =>
      let r1 := hoistMsgLoop fieldName nt.reverse fs
      let r2 := hoistEnumLoop fieldName et.reverse r1.1
      (.mk n r2.1 [] [] od me, r1.2, r2.2)

/-- Extra kwargs applied to one oneof member's field
(`oneof_index`, `number`, lower-cased `name`). -/
structure OneofExtra where
  oneofIndex : Nat
  number : Nat
  lowerName : String
  deriving Repr

/-- Accumulators of `_convert_message`: `field_descriptors`, `nested_enums`,
`nested_messages`, `nested_oneofs` and the converter's `self.imports`. -/
structure MsgAcc where
  fields : List FieldDescriptorProto := []
  enums : List EnumDescriptorProto := []
  msgs : List DescriptorProto := []
  oneofs : List String := []
  imps : List String := []
  deriving Repr

/-- The body of the `for nested, extra_kwargs in nested_results:` loop of
`_convert_message` (lines 488-573): fix up the field kwargs by the kind of the
conversion result, append fresh drafts to the nested lists (hoisting the
children of a map entry), and append the built field descriptor. -/
def placeField (fieldName : String) (base : FieldDescriptorProto)
    (extra : Option OneofExtra) (nested : ConvertOutput) (acc : MsgAcc) : MsgAcc :=
  let fk := match extra with
    | none => base
    | some e =>
        { base with
          oneof_index := some e.oneofIndex
          number := e.number
          name := e.lowerName }
  match nested with
  | .scalar c => { acc with fields := acc.fields ++ [{ fk with type := c }] }
  | .extEnum _ fullName _ =>
      { acc with fields := acc.fields ++ [{ fk with type := 14, type_name := fullName }] }
  | .extMessage _ fullName _ =>
      { acc with fields := acc.fields ++ [{ fk with type := 11, type_name := fullName }] }
  | .nestedEnum e =>
      { acc with enums := acc.enums ++ [e]
                 fields := acc.fields ++ [{ fk with type := 14, type_name := e.name }] }
  | .nestedMsg d =>
      let fk := { fk with type := 11, type_name := d.name }
      if d.map_entry then
        let r := hoistEntry fieldName d
        { acc with msgs := acc.msgs ++ [r.1] ++ r.2.1
                   enums := acc.enums ++ r.2.2
                   fields := acc.fields ++ [{ fk with label := 3 }] }
      else
        { acc with msgs := acc.msgs ++ [d]
                   fields := acc.fields ++ [fk] }

/-- The `optional`-as-oneof pass of `_convert_message` (lines 598-611):
every field whose name is among the optional field names and whose label is
`LABEL_OPTIONAL` gets a synthetic single-member oneof `_{name}`; `k` counts
the synthetic oneofs already created. -/
def addOptionalOneofs (optNames : List String) (numExplicit : Nat) :
    List FieldDescriptorProto → Nat → List FieldDescriptorProto × List String
  | [], _ => ([], [])
  | f :: rest, k =>
      if optNames.contains f.name && (f.label == 1) then
        let f' := { f with oneof_index := some (numExplicit + k) }
        let r := addOptionalOneofs optNames numExplicit rest (k + 1)
        (f' :: r.1, ("_" ++ f.name) :: r.2)
      else
        let r := addOptionalOneofs optNames numExplicit rest k
        (f :: r.1, r.2)

/-- The `has_additional_fields` branch of `_convert_message` (lines 580-594):
raise when a field named `additionalProperties` was already built, else append
the well-known-Struct `additionalProperties` field numbered one past the
fields placed so far and record the struct import. -/
def addStructField (acc : MsgAcc) : Except ConvErr MsgAcc :=
  if acc.fields.any (·.name == "additionalProperties") then
    .error .additionalPropertiesClash
  else
    .ok { acc with
      fields := acc.fields ++
        [{ name := "additionalProperties", number := acc.fields.length + 1,
           type := 11, label := 1, type_name := "google.protobuf.Struct" }]
      imps := addImport acc.imps "google/protobuf/struct.proto" }

/-- Tail of `_convert_message` (lines 575-625): optionally append the
`additionalProperties` Struct field, run the optional-as-oneof pass, and
assemble the `DescriptorProto`.  Returns the message and the updated
imports. -/
def finishMessage (entry : JTDNode) (msgName : String) (acc : MsgAcc) :
    Except ConvErr (DescriptorProto × List String) :=
  match (if entry.additionalProperties then addStructField acc else .ok acc) with
  | .error e => .error e
  | .ok acc =>
    let r := addOptionalOneofs (optionalFieldNames entry) acc.oneofs.length acc.fields 0
    .ok (.mk msgName r.1 acc.msgs acc.enums (acc.oneofs ++ r.2) false,
      acc.imps)

/-! ## The recursive converter (`ConverterBase._convert` driven by the JTD
adapter)

The python recursion always descends into strict sub-dicts; the embedding
makes this explicit with a fuel argument decremented on every call. -/

/-- `str.lower()` (ASCII, as used on proto identifiers). -/
def pyLower (s : String) : String :=
  String.mk (s.data.map Char.toLower)

/-- Code-point lexicographic string order, as python `sorted` uses. -/
def charListLe : List Char → List Char → Bool
  | [], _ => true
  | _ :: _, [] => false
  | c :: cs, d :: ds =>
      if c.toNat < d.toNat then true
      else if d.toNat < c.toNat then false
      else charListLe cs ds

/-- `ConverterBase._convert_concrete_type` specialized to the JTD adapter and
the default type mapping: a scalar mapping hit returns the type code; a
well-known-class hit returns an external message reference and records the
import; a miss raises the invalid-type-specifier error. -/
def convertConcreteType (ct : String) (imps : List String) :
    Except ConvErr (ConvertOutput × List String) :=
  match jtdTypeMapping ct with
  | some (.scalar c) => .ok (.scalar c, imps)
  | some (.wellKnown shortName fullName fileName) =>
      .ok (.extMessage shortName fullName fileName, addImport imps fileName)
  | none => .error (.invalidTypeSpecifier ct)

mutual

/-- `ConverterBase._convert`: dispatch on concrete type, map, enum, message —
in that order — and raise on an unrecognized node shape. -/
def convert : Nat → JTDNode → String → List String →
    Except ConvErr (ConvertOutput × List String)
  | 0, _, _, _ => .error .outOfFuel
  | fuel + 1, entry, name, imps =>
    if truthyType entry then
      match entry.type with
      | some t => convertConcreteType t imps
      | none => .error (.unsupportedEntry entry)
    else
      match entry.values with
      | some v =>
          -- JTDConverter.get_map_key_val_types + _convert_map
          (match jtdTypeMapping "string" with
           | some (.scalar keyType) =>
               (match convert fuel v "value" imps with
                | .error e => .error e
                | .ok (valOut, imps') =>
                    .ok (.nestedMsg (convertMapProto name keyType valOut), imps'))
           | _ => .error .stringKeyMissing)
      | none =>
        match entry.enum with
        | some names =>
            -- JTDConverter.get_enum_vals + _convert_enum
            .ok (.nestedEnum (convertEnumProto (toUpperCamel name) (jtdEnumVals names)),
              imps)
        | none =>
          let mf := mergedFields entry
          if mf.isEmpty then .error (.unsupportedEntry entry)
          else
            -- _convert_message
            match convertFields fuel mf { imps := imps } with
            | .error e => .error e
            | .ok acc =>
              match finishMessage entry (toUpperCamel name) acc with
              | .error e => .error e
              | .ok (msg, imps') => .ok (.nestedMsg msg, imps')

/-- The `for field_name, field_def in message_fields:` loop of
`_convert_message`. -/
def convertFields : Nat → List (String × JTDNode) → MsgAcc →
    Except ConvErr MsgAcc
  | 0, _, _ => .error .outOfFuel
  | _ + 1, [], acc => .ok acc
  | fuel + 1, (fname, fdef) :: rest, acc =>
      let base : FieldDescriptorProto :=
        { name := fname
          number := getFieldNumber acc.fields.length fdef
          label := if isRepeatedField fdef then 3 else 1 }
      if fdef.discriminator.isSome && !fdef.mapping.isEmpty then
        -- oneof: convert each member of the discriminator mapping
        match convertOneofMembers fuel fdef.mapping acc.oneofs.length
            acc.fields.length 0 acc.imps with
        | .error e => .error e
        | .ok (results, imps') =>
          let oneofName := fdef.discriminator.getD ""
          let acc := { acc with oneofs := acc.oneofs ++ [oneofName], imps := imps' }
          let acc := results.foldl
            (fun a r => placeField fname base (some r.2) r.1 a) acc
          convertFields fuel rest acc
      else
        -- regular field: recurse on the unwrapped field type
        let ftype := fdef.elements.getD fdef
        match convert fuel ftype fname acc.imps with
        | .error e => .error e
        | .ok (res, imps') =>
          let acc := placeField fname base none res { acc with imps := imps' }
          convertFields fuel rest acc

/-- The oneof-member comprehension of `_convert_message` (lines 444-465):
convert each member of the discriminator mapping, threading imports, and
record the extra kwargs (`oneof_index`, member field number, lower-cased
member name). -/
def convertOneofMembers : Nat → List (String × JTDNode) → Nat → Nat → Nat →
    List String → Except ConvErr (List (ConvertOutput × OneofExtra) × List String)
  | 0, _, _, _, _, _ => .error .outOfFuel
  | _ + 1, [], _, _, _, imps => .ok ([], imps)
  | fuel + 1, (mname, mdef) :: rest, oneofIdx, numFields, memberIdx, imps =>
      match convert fuel mdef mname imps with
      | .error e => .error e
      | .ok (res, imps') =>
        let extra : OneofExtra :=
          { oneofIndex := oneofIdx
            number := getFieldNumber (numFields + memberIdx) mdef
            lowerName := pyLower mname }
        match convertOneofMembers fuel rest oneofIdx numFields (memberIdx + 1) imps' with
        | .error e => .error e
        | .ok (restResults, imps'') => .ok ((res, extra) :: restResults, imps'')

end

/-! ## Materialization (`ConverterBase.__init__` + `jtd_to_proto`) -/

/-- Insertion sort on strings (`sorted(list(self.imports))`). -/
def insertSortedStr (s : String) : List String → List String
  | [] => [s]
  | t :: rest =>
      if charListLe s.data t.data then s :: t :: rest
      else t :: insertSortedStr s rest

/-- `sorted` for the dependency list. -/
def sortStrings (l : List String) : List String :=
  l.foldr insertSortedStr []

/-- A live descriptor handle resolved from a pool, as returned by
`FindMessageTypeByName` / `FindEnumTypeByName`. -/
inductive FoundDescriptor where
  | message (fullName : String) (proto : DescriptorProto)
  | enum (fullName : String) (proto : EnumDescriptorProto)
  deriving Repr, Inhabited

/-- Fully qualified name: `package.name`, or bare `name` when the package is
empty. -/
def fullNameOf (pkg n : String) : String :=
  if pkg = "" then n else pkg ++ "." ++ n

/-- `pool.FindMessageTypeByName` restricted to top-level messages (the
converter only registers top-level messages). -/
def findMessageInPool (pool : DescriptorPool) (fullName : String) :
    Option FoundDescriptor :=
  pool.files.findSome? fun f =>
    (f.message_type.find? fun m => fullNameOf f.package m.name == fullName).map
      (fun m => .message fullName m)

/-- `pool.FindEnumTypeByName` restricted to top-level enums. -/
def findEnumInPool (pool : DescriptorPool) (fullName : String) :
    Option FoundDescriptor :=
  pool.files.findSome? fun f =>
    (f.enum_type.find? fun e => fullNameOf f.package e.name == fullName).map
      (fun e => .enum fullName e)

/-- `jtd_to_proto(name, package, jtd_def)` with the default type mapping and
`validate_jtd=False` (the default): run the recursive conversion, wrap the
result in a `FileDescriptorProto` named `{name.lower()}.proto`, register it
through `safe_add_fd_to_pool`, and resolve the final descriptor by fully
qualified name. -/
def jtdToProto (fuel : Nat) (name pkg : String) (schema : JTDNode)
    (pool : DescriptorPool) : Except ConvErr (FoundDescriptor × DescriptorPool) :=
  match convert fuel schema name [] with
  | .error e => .error e
  | .ok (out, imps) =>
    let fdName := pyLower name ++ ".proto"
    match out with
    | .nestedMsg d =>
        let fd : FileDescriptorProto :=
          { name := fdName, package := pkg, dependency := sortStrings imps,
            message_type := [d] }
        (match safeAddFdToPool fd pool with
         | .error e => .error e
         | .ok pool' =>
           match findMessageInPool pool' (fullNameOf pkg name) with
           | some m => .ok (m, pool')
           | none => .error (.notFound (fullNameOf pkg name)))
    | .nestedEnum e =>
        let fd : FileDescriptorProto :=
          { name := fdName, package := pkg, dependency := sortStrings imps,
            enum_type := [e] }
        (match safeAddFdToPool fd pool with
         | .error e => .error e
         | .ok pool' =>
           match findEnumInPool pool' (fullNameOf pkg name) with
           | some en => .ok (en, pool')
           | none => .error (.notFound (fullNameOf pkg name)))
    | _ => .error .onlyMessagesEnums

/-! ## Concrete schema builders (used by the concrete test inputs below) -/

/-- The empty JTD dict `{}`. -/
def JTDNode.empty : JTDNode := .mk none none none [] [] false none none [] none

/-- `{"type": t}`. -/
def JTDNode.ofType (t : String) : JTDNode :=
  .mk (some t) none none [] [] false none none [] none

/-- `{"properties": ps}`. -/
def JTDNode.ofProps (ps : List (String × JTDNode)) : JTDNode :=
  .mk none none none ps [] false none none [] none

/-- `{"optionalProperties": qs}`. -/
def JTDNode.ofOptProps (qs : List (String × JTDNode)) : JTDNode :=
  .mk none none none [] qs false none none [] none

/-- `{"values": v}`. -/
def JTDNode.ofValues (v : JTDNode) : JTDNode :=
  .mk none (some v) none [] [] false none none [] none

/-- `{"elements": el}`. -/
def JTDNode.ofElements (el : JTDNode) : JTDNode :=
  .mk none none none [] [] false none none [] (some el)

/-- Extract the payload of a successful run (used to state closed concrete
equalities). -/
def runOk {α : Type} [Inhabited α] : Except ConvErr α → α
  | .ok a => a
  | .error _ => default

/-! # Claims -/

/-! ## C1 — idempotent re-registration -/

/-- C1: converting the identical schema twice under the same top-level name
and package into the same pool succeeds both times; the second registration is
a no-op on the pool and both calls return the descriptor resolved from the
pool by the fully qualified name `package.name`. -/
theorem c1_reregistration_idempotent (fuel : Nat) (name pkg : String)
    (schema : JTDNode) (pool pool' : DescriptorPool) (desc : FoundDescriptor)
    (h : jtdToProto fuel name pkg schema pool = .ok (desc, pool')) :
    jtdToProto fuel name pkg schema pool' = .ok (desc, pool') := by
  unfold jtdToProto at h ⊢
  revert h
  cases hc : convert fuel schema name [] with
  | error e => intro h; simp at h
  | ok p =>
    obtain ⟨out, imps⟩ := p
    cases out with
    | nestedMsg d =>
      intro h
      simp only at h ⊢
      cases hs : safeAddFdToPool
          { name := pyLower name ++ ".proto", package := pkg,
            dependency := sortStrings imps, message_type := [d] } pool with
      | error e => rw [hs] at h; simp at h
      | ok pool₁ =>
        rw [hs] at h
        simp only at h
        cases hf : findMessageInPool pool₁ (fullNameOf pkg name) with
        | none => rw [hf] at h; simp at h
        | some m =>
          rw [hf] at h
          simp only at h
          injection h with h
          injection h with h1 h2
          subst h1; subst h2
          rw [safeAddFdToPool_idem hs]
          simp only
          rw [hf]
    | nestedEnum e =>
      intro h
      simp only at h ⊢
      cases hs : safeAddFdToPool
          { name := pyLower name ++ ".proto", package := pkg,
            dependency := sortStrings imps, enum_type := [e] } pool with
      | error err => rw [hs] at h; simp at h
      | ok pool₁ =>
        rw [hs] at h
        simp only at h
        cases hf : findEnumInPool pool₁ (fullNameOf pkg name) with
        | none => rw [hf] at h; simp at h
        | some en =>
          rw [hf] at h
          simp only at h
          injection h with h
          injection h with h1 h2
          subst h1; subst h2
          rw [safeAddFdToPool_idem hs]
          simp only
          rw [hf]
    | scalar c => intro h; simp at h
    | extMessage a b c => intro h; simp at h
    | extEnum a b c => intro h; simp at h

def c1Schema : JTDNode := .ofProps [("foo", .ofType "boolean")]

def c1Run : Except ConvErr (FoundDescriptor × DescriptorPool) :=
  jtdToProto 4 "Foo" "foo.bar" c1Schema ⟨[]⟩

/-- Concrete instantiation of C1: converting `{properties: {foo: {type:
"boolean"}}}` as `foo.bar.Foo` twice into the same pool. -/
theorem c1_reregistration_idempotent_witness :
    jtdToProto 4 "Foo" "foo.bar" c1Schema ⟨[]⟩ =
      .ok ((runOk c1Run).1, (runOk c1Run).2) ∧
    jtdToProto 4 "Foo" "foo.bar" c1Schema (runOk c1Run).2 =
      .ok ((runOk c1Run).1, (runOk c1Run).2) :=
  have h : jtdToProto 4 "Foo" "foo.bar" c1Schema ⟨[]⟩ =
      .ok ((runOk c1Run).1, (runOk c1Run).2) := by rfl
  ⟨h, c1_reregistration_idempotent 4 "Foo" "foo.bar" c1Schema ⟨[]⟩
    (runOk c1Run).2 (runOk c1Run).1 h⟩

/-! ## C10 — structural equivalence ignores field numbers and type names -/

theorem msgAlignKeys_of_pairs (l1 l2 : List DescriptorProto)
    (h : ∀ k m1 m2, dictGet DescriptorProto.name l1 k = some m1 →
        dictGet DescriptorProto.name l2 k = some m2 →
        areSameMessageDescriptor m1 m2 = true) :
    ∀ ks, msgAlignKeys l1 l2 ks = true := by
  intro ks
  induction ks with
  | nil => rw [msgAlignKeys]
  | cons k ks ih =>
    rw [msgAlignKeys]
    cases h1 : dictGet DescriptorProto.name l1 k with
    | none => simp [ih]
    | some m1 =>
      cases h2 : dictGet DescriptorProto.name l2 k with
      | none => simp [ih]
      | some m2 => simp [h k m1 m2 h1 h2, ih]

theorem fieldsAgreeByName_of_pairs (fs1 fs2 : List FieldDescriptorProto)
    (hset : sameNameSet (fs1.map (·.name)) (fs2.map (·.name)) = true)
    (h : ∀ f1 ∈ fs1, ∀ f2 ∈ fs2, f1.name = f2.name →
        f1.label = f2.label ∧ f1.type = f2.type) :
    fieldsAgreeByName fs1 fs2 = true := by
  unfold fieldsAgreeByName
  rw [hset]
  simp only [Bool.true_and]
  rw [List.all_eq_true]
  intro k hk
  cases h1 : dictGet (·.name) fs1 k with
  | none => simp
  | some f1 =>
    cases h2 : dictGet (·.name) fs2 k with
    | none => simp
    | some f2 =>
      obtain ⟨hm1, hn1⟩ := dictGet_mem h1
      obtain ⟨hm2, hn2⟩ := dictGet_mem h2
      obtain ⟨hl, ht⟩ := h f1 hm1 f2 hm2 (by rw [hn1, hn2])
      simp [hl, ht]

/-- C10: the merge-equivalence check compares messages by name and fields by
(name, label, type) only; two file descriptor protos that agree on package,
dependencies, enums and services, whose (nested-type-free) messages match by
name with same-named fields agreeing on label and type code, are judged
structurally equal — whatever their field numbers and referenced type names —
and re-registering such a file is a silent no-op on the pool. -/
theorem c10_equivalence_ignores_numbers_and_type_names
    (fd1 fd2 : FileDescriptorProto)
    (hpkg : fd2.package = fd1.package)
    (hdep : fd2.dependency = fd1.dependency)
    (henums : fd2.enum_type = fd1.enum_type)
    (hsvc : fd2.service = fd1.service)
    (hnames : sameNameSet (fd2.message_type.map DescriptorProto.name)
        (fd1.message_type.map DescriptorProto.name) = true)
    (hmsgs : ∀ m2 ∈ fd2.message_type, ∀ m1 ∈ fd1.message_type,
      m2.name = m1.name →
      m2.enum_type = m1.enum_type ∧ m2.nested_type = [] ∧ m1.nested_type = [] ∧
      sameNameSet (m2.field.map (·.name)) (m1.field.map (·.name)) = true ∧
      ∀ f2 ∈ m2.field, ∀ f1 ∈ m1.field, f2.name = f1.name →
        f2.label = f1.label ∧ f2.type = f1.type) :
    areSameFileDescriptors fd2 fd1 = true ∧
    ∀ pool : DescriptorPool, pool.findFile fd2.name = some fd1 →
      safeAddFdToPool fd2 pool = .ok pool := by
  have hsame : areSameFileDescriptors fd2 fd1 = true := by
    unfold areSameFileDescriptors
    rw [hpkg, hdep, henums, hsvc]
    simp only [beq_self_eq_true, Bool.true_and, areSameEnumDescriptors_refl,
      checkServiceDescAlignment_refl, Bool.and_true]
    unfold checkMessageDescsAlignment
    rw [hnames]
    simp only [Bool.true_and]
    apply msgAlignKeys_of_pairs
    intro k m2 m1 h2 h1
    obtain ⟨hmem2, hname2⟩ := dictGet_mem h2
    obtain ⟨hmem1, hname1⟩ := dictGet_mem h1
    obtain ⟨he, hn2, hn1, hfset, hfields⟩ :=
      hmsgs m2 hmem2 m1 hmem1 (by rw [hname2, hname1])
    cases m2 with
    | mk nm2 fs2 ns2 es2 od2 me2 =>
      cases m1 with
      | mk nm1 fs1 ns1 es1 od1 me1 =>
        simp only [DescriptorProto.enum_type_mk, DescriptorProto.nested_type_mk,
          DescriptorProto.field_mk] at he hn2 hn1 hfset hfields
        subst hn2; subst hn1
        rw [areSameMessageDescriptor]
        rw [he]
        simp only [areSameEnumDescriptors_refl, Bool.true_and, List.isEmpty_nil,
          Bool.and_self, if_true, Bool.and_true]
        exact fieldsAgreeByName_of_pairs fs2 fs1 hfset hfields
  refine ⟨hsame, ?_⟩
  intro pool hfind
  unfold safeAddFdToPool
  rw [hfind]
  simp [hsame]

/-- Two top-level messages `M` whose single field `a` agrees on label and type
but differs in field number and referenced type name. -/
def c10Msg1 : DescriptorProto :=
  .mk "M" [{ name := "a", number := 1, label := 1, type := 11, type_name := "p.X" }]
    [] [] [] false

def c10Msg2 : DescriptorProto :=
  .mk "M" [{ name := "a", number := 7, label := 1, type := 11, type_name := "p.Y" }]
    [] [] [] false

def c10File1 : FileDescriptorProto :=
  { name := "m.proto", package := "p", message_type := [c10Msg1] }

def c10File2 : FileDescriptorProto :=
  { name := "m.proto", package := "p", message_type := [c10Msg2] }

/-- Concrete instantiation of C10: the two files differ in field number
(1 vs 7) and referenced type name (`p.X` vs `p.Y`) yet re-registration is a
no-op. -/
theorem c10_equivalence_ignores_numbers_and_type_names_witness :
    areSameFileDescriptors c10File2 c10File1 = true ∧
    safeAddFdToPool c10File2 ⟨[c10File1]⟩ = .ok ⟨[c10File1]⟩ := by
  obtain ⟨h1, h2⟩ := c10_equivalence_ignores_numbers_and_type_names
    c10File1 c10File2 rfl rfl rfl rfl (by decide)
    (by
      intro m2 hm2 m1 hm1 _
      simp only [c10File2, c10File1, List.mem_singleton] at hm2 hm1
      subst hm2; subst hm1
      refine ⟨rfl, rfl, rfl, by decide, ?_⟩
      intro f2 hf2 f1 hf1 _
      simp only [c10Msg2, c10Msg1, DescriptorProto.field_mk,
        List.mem_singleton] at hf2 hf1
      subst hf2; subst hf1
      exact ⟨rfl, rfl⟩)
  exact ⟨h1, h2 ⟨[c10File1]⟩ rfl⟩

/-! ## C2 — structural conflict detection -/

theorem msgAlignKeys_false_of_mismatch (l1 l2 : List DescriptorProto)
    (ks : List String) (k : String) (hk : k ∈ ks) (m1 m2 : DescriptorProto)
    (h1 : dictGet DescriptorProto.name l1 k = some m1)
    (h2 : dictGet DescriptorProto.name l2 k = some m2)
    (hf : areSameMessageDescriptor m1 m2 = false) :
    msgAlignKeys l1 l2 ks = false := by
  induction ks with
  | nil => cases hk
  | cons k' ks ih =>
    rw [msgAlignKeys]
    rcases List.mem_cons.1 hk with rfl | hk'
    · cases hd1 : dictGet DescriptorProto.name l1 k with
      | none => rw [hd1] at h1; cases h1
      | some m1' =>
        rw [hd1] at h1
        injection h1 with h1e
        subst h1e
        cases hd2 : dictGet DescriptorProto.name l2 k with
        | none => rw [hd2] at h2; cases h2
        | some m2' =>
          rw [hd2] at h2
          injection h2 with h2e
          subst h2e
          simp [hf]
    · simp [ih hk']

/-- If one shared field name disagrees on label or type, the field-level check
is false. -/
theorem fieldsAgreeByName_false_of_mismatch (fs1 fs2 : List FieldDescriptorProto)
    (fk : String) (f1 f2 : FieldDescriptorProto)
    (h1 : dictGet (·.name) fs1 fk = some f1)
    (h2 : dictGet (·.name) fs2 fk = some f2)
    (hne : f1.label ≠ f2.label ∨ f1.type ≠ f2.type) :
    fieldsAgreeByName fs1 fs2 = false := by
  unfold fieldsAgreeByName
  by_cases hset : sameNameSet (fs1.map (·.name)) (fs2.map (·.name)) = true
  · rw [hset]
    simp only [Bool.true_and]
    rw [List.all_eq_false]
    refine ⟨fk, key_mem_of_dictGet h1, ?_⟩
    rcases hne with hne | hne <;> simp [h1, h2, hne]
  · rw [Bool.not_eq_true] at hset
    simp [hset]

theorem enumValueLists_pairs_eq :
    ∀ (v1 v2 : List EnumValueDescriptorProto),
    v1.length = v2.length →
    ((v1.zip v2).all fun p => p.1.name == p.2.name && decide (p.1.number = p.2.number))
      = true →
    v1.map (fun v => (v.name, v.number)) = v2.map (fun v => (v.name, v.number)) := by
  intro v1
  induction v1 with
  | nil =>
    intro v2 hlen _
    cases v2 with
    | nil => rfl
    | cons y ys => simp at hlen
  | cons x xs ih =>
    intro v2 hlen hzip
    cases v2 with
    | nil => simp at hlen
    | cons y ys =>
      simp only [List.zip_cons_cons, List.all_cons, Bool.and_eq_true] at hzip
      obtain ⟨⟨hn, hnum⟩, hrest⟩ := hzip
      rw [beq_iff_eq] at hn
      rw [decide_eq_true_eq] at hnum
      simp only [List.length_cons] at hlen
      simp only [List.map_cons, List.cons.injEq]
      exact ⟨by rw [hn, hnum], ih ys (by omega) hrest⟩

/-- If the ordered (name, number) value lists differ, the enum value check is
false. -/
theorem areSameEnumValueLists_false_of_ne (v1 v2 : List EnumValueDescriptorProto)
    (hne : v1.map (fun v => (v.name, v.number)) ≠ v2.map (fun v => (v.name, v.number))) :
    areSameEnumValueLists v1 v2 = false := by
  rw [← Bool.not_eq_true]
  intro htrue
  apply hne
  unfold areSameEnumValueLists at htrue
  rw [Bool.and_eq_true] at htrue
  obtain ⟨hlen, hzip⟩ := htrue
  rw [beq_iff_eq] at hlen
  exact enumValueLists_pairs_eq v1 v2 hlen hzip

theorem enumAlign_false_of_mismatch (es1 es2 : List EnumDescriptorProto)
    (k : String) (e1 e2 : EnumDescriptorProto)
    (h1 : dictGet (·.name) es1 k = some e1)
    (h2 : dictGet (·.name) es2 k = some e2)
    (hf : areSameEnumValueLists e1.value e2.value = false) :
    areSameEnumDescriptors es1 es2 = false := by
  simp only [areSameEnumDescriptors]
  by_cases hset : sameNameSet (es1.map (·.name)) (es2.map (·.name)) = true
  · rw [hset]
    simp only [Bool.true_and]
    rw [List.all_eq_false]
    exact ⟨k, key_mem_of_dictGet h1, by simp [h1, h2, hf]⟩
  · rw [Bool.not_eq_true] at hset
    simp [hset]

theorem svcAlign_false_of_mismatch (l1 l2 : List ServiceDescriptorProto)
    (k : String) (s1 s2 : ServiceDescriptorProto)
    (h1 : dictGet (·.name) l1 k = some s1)
    (h2 : dictGet (·.name) l2 k = some s2)
    (hf : areSameServiceDescriptor s1 s2 = false) :
    checkServiceDescAlignment l1 l2 = false := by
  simp only [checkServiceDescAlignment]
  by_cases hset : sameNameSet (l1.map (·.name)) (l2.map (·.name)) = true
  · rw [hset]
    simp only [Bool.true_and]
    rw [List.all_eq_false]
    exact ⟨k, key_mem_of_dictGet h1, by simp [h1, h2, hf]⟩
  · rw [Bool.not_eq_true] at hset
    simp [hset]

def dupSchemaStr : JTDNode := .ofProps [("a", .ofType "string")]
def dupSchemaInt : JTDNode := .ofProps [("a", .ofType "int32")]

def dupPool : DescriptorPool :=
  (runOk (jtdToProto 4 "Dup" "p" dupSchemaStr ⟨[]⟩)).2

def dupMsgStr : DescriptorProto :=
  .mk "Dup" [{ name := "a", number := 1, label := 1, type := 9 }] [] [] [] false

def dupMsgInt : DescriptorProto :=
  .mk "Dup" [{ name := "a", number := 1, label := 1, type := 5 }] [] [] [] false

def dupFileStr : FileDescriptorProto :=
  { name := "dup.proto", package := "p", message_type := [dupMsgStr] }

def dupFileInt : FileDescriptorProto :=
  { name := "dup.proto", package := "p", message_type := [dupMsgInt] }

/-- Part 1 of C2: a failed structural comparison against the same-named
existing file raises the conflict error naming the file. -/
theorem conflictRaisedOnMismatch (fd existing : FileDescriptorProto)
    (pool : DescriptorPool) (hfind : pool.findFile fd.name = some existing)
    (hdiff : areSameFileDescriptors fd existing = false) :
    safeAddFdToPool fd pool = .error (.conflict fd.name) := by
  unfold safeAddFdToPool
  rw [hfind]
  simp [hdiff]

/-- Part 2 of C2: a shared message field disagreeing on label or type makes
the structural comparison fail. -/
theorem fileMismatchOfFieldMismatch (fd1 fd2 : FileDescriptorProto) (k : String)
    (m1 m2 : DescriptorProto) (fk : String) (f1 f2 : FieldDescriptorProto)
    (h1 : dictGet DescriptorProto.name fd1.message_type k = some m1)
    (h2 : dictGet DescriptorProto.name fd2.message_type k = some m2)
    (hf1 : dictGet (·.name) m1.field fk = some f1)
    (hf2 : dictGet (·.name) m2.field fk = some f2)
    (hne : f1.label ≠ f2.label ∨ f1.type ≠ f2.type) :
    areSameFileDescriptors fd1 fd2 = false := by
  have hmsgfalse : areSameMessageDescriptor m1 m2 = false := by
    cases m1 with
    | mk nm1 fs1 ns1 es1 od1 me1 =>
      cases m2 with
      | mk nm2 fs2 ns2 es2 od2 me2 =>
        simp only [DescriptorProto.field_mk] at hf1 hf2
        rw [areSameMessageDescriptor]
        simp [fieldsAgreeByName_false_of_mismatch fs1 fs2 fk f1 f2 hf1 hf2 hne]
  have halign : checkMessageDescsAlignment fd1.message_type fd2.message_type = false := by
    unfold checkMessageDescsAlignment
    by_cases hset : sameNameSet (fd1.message_type.map DescriptorProto.name)
        (fd2.message_type.map DescriptorProto.name) = true
    · rw [hset]
      simp only [Bool.true_and]
      exact msgAlignKeys_false_of_mismatch _ _ _ k (key_mem_of_dictGet h1)
        m1 m2 h1 h2 hmsgfalse
    · rw [Bool.not_eq_true] at hset
      simp [hset]
  simp [areSameFileDescriptors, halign]

/-- Part 3 of C2: a shared enum with differing ordered (name, number) values
makes the structural comparison fail. -/
theorem fileMismatchOfEnumMismatch (fd1 fd2 : FileDescriptorProto) (k : String)
    (e1 e2 : EnumDescriptorProto)
    (h1 : dictGet (·.name) fd1.enum_type k = some e1)
    (h2 : dictGet (·.name) fd2.enum_type k = some e2)
    (hne : e1.value.map (fun v => (v.name, v.number)) ≠
      e2.value.map (fun v => (v.name, v.number))) :
    areSameFileDescriptors fd1 fd2 = false := by
  have henum : areSameEnumDescriptors fd1.enum_type fd2.enum_type = false :=
    enumAlign_false_of_mismatch _ _ k e1 e2 h1 h2
      (areSameEnumValueLists_false_of_ne _ _ hne)
  simp [areSameFileDescriptors, henum]

/-- Part 4 of C2: a shared service method with differing client-streaming
flags makes the structural comparison fail. -/
theorem fileMismatchOfMethodMismatch (fd1 fd2 : FileDescriptorProto)
    (k mk1 : String) (s1 s2 : ServiceDescriptorProto)
    (meth1 meth2 : MethodDescriptorProto)
    (h1 : dictGet (·.name) fd1.service k = some s1)
    (h2 : dictGet (·.name) fd2.service k = some s2)
    (hm1 : dictGet (·.name) s1.method mk1 = some meth1)
    (hm2 : dictGet (·.name) s2.method mk1 = some meth2)
    (hne : meth1.client_streaming ≠ meth2.client_streaming) :
    areSameFileDescriptors fd1 fd2 = false := by
  have hmeth : areSameMethodDescriptor meth1 meth2 = false := by
    unfold areSameMethodDescriptor
    have : (meth1.client_streaming == meth2.client_streaming) = false := by
      simpa using hne
    simp [this]
  have hsvc : areSameServiceDescriptor s1 s2 = false := by
    simp only [areSameServiceDescriptor]
    by_cases hset : sameNameSet (s1.method.map (·.name)) (s2.method.map (·.name)) = true
    · rw [hset]
      simp only [Bool.true_and]
      rw [List.all_eq_false]
      exact ⟨mk1, key_mem_of_dictGet hm1, by simp [hm1, hm2, hmeth]⟩
    · rw [Bool.not_eq_true] at hset
      simp [hset]
  have halign : checkServiceDescAlignment fd1.service fd2.service = false :=
    svcAlign_false_of_mismatch _ _ k s1 s2 h1 h2 hsvc
  simp [areSameFileDescriptors, halign]

/-- Part 5 of C2: the concrete `Dup` scenario raises on the second call. -/
theorem dupScenarioRaises :
    jtdToProto 4 "Dup" "p" dupSchemaInt dupPool = .error (.conflict "dup.proto") := by
  have hdiff : areSameFileDescriptors dupFileInt dupFileStr = false :=
    fileMismatchOfFieldMismatch dupFileInt dupFileStr "Dup" dupMsgInt dupMsgStr
      "a" _ _ rfl rfl rfl rfl (Or.inr (by decide))
  have hpool : dupPool = ⟨[dupFileStr]⟩ := rfl
  have hadd : safeAddFdToPool dupFileInt ⟨[dupFileStr]⟩ = .error (.conflict "dup.proto") := by
    unfold safeAddFdToPool
    have hfind : DescriptorPool.findFile ⟨[dupFileStr]⟩ dupFileInt.name = some dupFileStr := rfl
    rw [hfind]
    simp [hdiff]
    rfl
  rw [hpool]
  unfold jtdToProto
  have hconv : convert 4 dupSchemaInt "Dup" [] =
      Except.ok (ConvertOutput.nestedMsg dupMsgInt, ([] : List String)) := rfl
  rw [hconv]
  simp only
  have hadd2 : safeAddFdToPool
      { name := pyLower "Dup" ++ ".proto", package := "p",
        dependency := sortStrings [], message_type := [dupMsgInt] }
      ⟨[dupFileStr]⟩ = .error (.conflict "dup.proto") := hadd
  rw [hadd2]

/-- C2: registering a candidate file under a name already present in the pool
with differing structure raises the registration-conflict error naming the
file: (1) the conflict error is raised exactly when the structural comparison
fails; a shared message field differing in label or type (2), a shared enum
differing in its ordered (name, number) values (3), and a shared service
method differing in streaming flags (4) each make the comparison fail; and
(5) the concrete `Dup` scenario — `{properties:{a:{type:"string"}}}` then
`{properties:{a:{type:"int32"}}}` under name `Dup`, package `p` — raises the
conflict error naming `dup.proto` on the second call. -/
theorem c2_structural_conflict_detection :
    (∀ (fd existing : FileDescriptorProto) (pool : DescriptorPool),
        pool.findFile fd.name = some existing →
        areSameFileDescriptors fd existing = false →
        safeAddFdToPool fd pool = .error (.conflict fd.name)) ∧
    (∀ (fd1 fd2 : FileDescriptorProto) (k : String) (m1 m2 : DescriptorProto)
        (fk : String) (f1 f2 : FieldDescriptorProto),
        dictGet DescriptorProto.name fd1.message_type k = some m1 →
        dictGet DescriptorProto.name fd2.message_type k = some m2 →
        dictGet (·.name) m1.field fk = some f1 →
        dictGet (·.name) m2.field fk = some f2 →
        (f1.label ≠ f2.label ∨ f1.type ≠ f2.type) →
        areSameFileDescriptors fd1 fd2 = false) ∧
    (∀ (fd1 fd2 : FileDescriptorProto) (k : String)
        (e1 e2 : EnumDescriptorProto),
        dictGet (·.name) fd1.enum_type k = some e1 →
        dictGet (·.name) fd2.enum_type k = some e2 →
        e1.value.map (fun v => (v.name, v.number)) ≠
          e2.value.map (fun v => (v.name, v.number)) →
        areSameFileDescriptors fd1 fd2 = false) ∧
    (∀ (fd1 fd2 : FileDescriptorProto) (k mk1 : String)
        (s1 s2 : ServiceDescriptorProto) (meth1 meth2 : MethodDescriptorProto),
        dictGet (·.name) fd1.service k = some s1 →
        dictGet (·.name) fd2.service k = some s2 →
        dictGet (·.name) s1.method mk1 = some meth1 →
        dictGet (·.name) s2.method mk1 = some meth2 →
        meth1.client_streaming ≠ meth2.client_streaming →
        areSameFileDescriptors fd1 fd2 = false) ∧
    jtdToProto 4 "Dup" "p" dupSchemaInt dupPool = .error (.conflict "dup.proto") :=
  ⟨conflictRaisedOnMismatch, fileMismatchOfFieldMismatch,
    fileMismatchOfEnumMismatch, fileMismatchOfMethodMismatch, dupScenarioRaises⟩

/-- Concrete instantiation of C2's field-mismatch part: the `Dup` file protos
from the scenario differ on field `a`'s type (string 9 vs int32 5), so the
pool rejects the second registration. -/
theorem c2_structural_conflict_detection_witness :
    areSameFileDescriptors dupFileInt dupFileStr = false ∧
    safeAddFdToPool dupFileInt ⟨[dupFileStr]⟩ = .error (.conflict "dup.proto") := by
  have hdiff := c2_structural_conflict_detection.2.1 dupFileInt dupFileStr "Dup"
    dupMsgInt dupMsgStr "a" _ _ rfl rfl rfl rfl (Or.inr (by decide))
  refine ⟨hdiff, ?_⟩
  have := c2_structural_conflict_detection.1 dupFileInt dupFileStr ⟨[dupFileStr]⟩ rfl hdiff
  exact this

/-! ## C4 — map entry shape -/

/-- C4: for every map-typed field the converter produces (1) a nested
`UpperCamel(name)Entry` message with exactly two fields — `key` numbered 1 of
the resolved key scalar and `value` numbered 2 of the converted value type —
whose options carry the map-entry flag; (2) the outer field referencing that
entry message is labeled repeated and message-typed; and (3) concretely,
field `biz` of `{values:{type:"float32"}}` yields nested `BizEntry` with
string `key` and float `value`, and `biz` is repeated, message-typed and
references `BizEntry`. -/
theorem c4_map_entry_shape :
    (∀ (name : String) (keyType : Nat) (valType : ConvertOutput),
      (convertMapProto name keyType valType).name = toUpperCamel name ++ "Entry" ∧
      (convertMapProto name keyType valType).map_entry = true ∧
      ∃ vf : FieldDescriptorProto,
        (convertMapProto name keyType valType).field =
          [{ name := "key", type := keyType, number := 1 }, vf] ∧
        vf.name = "value" ∧ vf.number = 2 ∧
        (∀ c, valType = .scalar c → vf.type = c) ∧
        (∀ d, valType = .nestedMsg d → vf.type = 11 ∧ vf.type_name = d.name) ∧
        (∀ e, valType = .nestedEnum e → vf.type = 14 ∧ vf.type_name = e.name)) ∧
    (∀ (fieldName : String) (base : FieldDescriptorProto)
        (extra : Option OneofExtra) (d : DescriptorProto) (acc : MsgAcc),
      d.map_entry = true →
      ∃ f : FieldDescriptorProto,
        (placeField fieldName base extra (.nestedMsg d) acc).fields =
          acc.fields ++ [f] ∧
        f.label = 3 ∧ f.type = 11 ∧ f.type_name = d.name) ∧
    convert 6 (.ofProps [("biz", .ofValues (.ofType "float32"))]) "M" [] =
      .ok (.nestedMsg (.mk "M"
        [{ name := "biz", number := 1, label := 3, type := 11, type_name := "BizEntry" }]
        [.mk "BizEntry"
          [{ name := "key", number := 1, type := 9 },
           { name := "value", number := 2, type := 2 }]
          [] [] [] true]
        [] [] false), []) := by
  refine ⟨?_, ?_, rfl⟩
  · intro name keyType valType
    cases valType with
    | scalar c =>
        refine ⟨rfl, rfl, _, rfl, rfl, rfl, ?_, ?_, ?_⟩
        · intro c' h; cases h; rfl
        · intro d h; cases h
        · intro e h; cases h
    | extMessage sn fn fl =>
        refine ⟨rfl, rfl, _, rfl, rfl, rfl, ?_, ?_, ?_⟩
        · intro c' h; cases h
        · intro d h; cases h
        · intro e h; cases h
    | extEnum sn fn fl =>
        refine ⟨rfl, rfl, _, rfl, rfl, rfl, ?_, ?_, ?_⟩
        · intro c' h; cases h
        · intro d h; cases h
        · intro e h; cases h
    | nestedMsg d =>
        refine ⟨rfl, rfl, _, rfl, rfl, rfl, ?_, ?_, ?_⟩
        · intro c' h; cases h
        · intro d' h; cases h; exact ⟨rfl, rfl⟩
        · intro e h; cases h
    | nestedEnum e =>
        refine ⟨rfl, rfl, _, rfl, rfl, rfl, ?_, ?_, ?_⟩
        · intro c' h; cases h
        · intro d h; cases h
        · intro e' h; cases h; exact ⟨rfl, rfl⟩
  · intro fieldName base extra d acc hme
    cases d with
    | mk n fs nt et od me =>
      simp only [DescriptorProto.map_entry_mk] at hme
      subst hme
      cases extra with
      | none =>
          exact ⟨{ base with type := 11, type_name := n, label := 3 },
            by simp [placeField], rfl, rfl, rfl⟩
      | some e =>
          refine ⟨{ base with
              oneof_index := some e.oneofIndex
              number := e.number
              name := e.lowerName
              type := 11
              type_name := n
              label := 3 }, by simp [placeField], rfl, rfl, rfl⟩

/-- Concrete instantiation of C4's placement part: placing the `BizEntry`
map-entry draft for field `biz` appends a repeated message-typed field
referencing `BizEntry`. -/
theorem c4_map_entry_shape_witness :
    ∃ f : FieldDescriptorProto,
      (placeField "biz" { name := "biz", number := 1, label := 1 } none
        (.nestedMsg (.mk "BizEntry"
          [{ name := "key", number := 1, type := 9 },
           { name := "value", number := 2, type := 2 }] [] [] [] true)) {}).fields =
        (({} : MsgAcc)).fields ++ [f] ∧
      f.label = 3 ∧ f.type = 11 ∧
      f.type_name = (DescriptorProto.mk "BizEntry"
          [{ name := "key", number := 1, type := 9 },
           { name := "value", number := 2, type := 2 }] [] [] [] true).name :=
  c4_map_entry_shape.2.1 "biz" { name := "biz", number := 1, label := 1 } none
    (.mk "BizEntry"
      [{ name := "key", number := 1, type := 9 },
       { name := "value", number := 2, type := 2 }] [] [] [] true) {} rfl

/-! ## C5 — enum zero-value invariant -/

/-- C5: when the supplied (name, number) pairs of an enum contain no
zero-valued entry, `DataclassConverter.get_enum_vals` prepends a synthetic
`PLACEHOLDER_UNSET = 0` entry, so the enum descriptor produced by
`_convert_enum` has a member named `PLACEHOLDER_UNSET` numbered 0 in first
position. -/
theorem c5_enum_zero_value_placeholder (enumName : String)
    (members : List (String × Int))
    (h : ¬ (members.map (·.2)).contains 0 = true) :
    (convertEnumProto enumName (dataclassGetEnumVals members)).value.head? =
      some { name := "PLACEHOLDER_UNSET", number := 0 } := by
  unfold dataclassGetEnumVals
  rw [if_neg h]
  simp [convertEnumProto]

/-- Concrete instantiation of C5: a python enum `{RED = 1, GREEN = 2}` gets
`PLACEHOLDER_UNSET = 0` prepended. -/
theorem c5_enum_zero_value_placeholder_witness :
    (convertEnumProto "Color" (dataclassGetEnumVals [("RED", 1), ("GREEN", 2)])).value.head? =
      some { name := "PLACEHOLDER_UNSET", number := 0 } :=
  c5_enum_zero_value_placeholder "Color" [("RED", 1), ("GREEN", 2)] (by decide)

/-! ## C7 — map-entry hoisting -/

/-- Boolean membership on string lists (used only to state the hoisting
rename). -/
def strListContains : List String → String → Bool
  | [], _ => false
  | t :: rest, s => if s == t then true else strListContains rest s

theorem strListContains_iff (l : List String) (s : String) :
    strListContains l s = true ↔ s ∈ l := by
  induction l with
  | nil => simp [strListContains]
  | cons t rest ih =>
    unfold strListContains
    by_cases h : (s == t) = true
    · rw [beq_iff_eq] at h
      subst h
      simp
    · rw [if_neg (by simp [h])]
      rw [Bool.not_eq_true] at h
      rw [ih]
      constructor
      · exact fun hm => List.mem_cons_of_mem _ hm
      · intro hm
        rcases List.mem_cons.mp hm with rfl | hm
        · rw [beq_self_eq_true] at h
          cases h
        · exact hm

theorem strListContains_append (a b : List String) (s : String) :
    strListContains (a ++ b) s = (strListContains a s || strListContains b s) := by
  induction a with
  | nil => simp [strListContains]
  | cons t rest ih =>
    rw [List.cons_append]
    show (if (s == t) = true then true else strListContains (rest ++ b) s) =
      ((if (s == t) = true then true else strListContains rest s) || strListContains b s)
    by_cases h : (s == t) = true
    · rw [if_pos h, if_pos h, Bool.true_or]
    · rw [if_neg h, if_neg h]
      exact ih

/-- The overall renaming of type-name references performed by the hoisting
loops: the name of a hoisted draft becomes `UpperCamel(fieldName_oldName)`;
anything else is untouched. -/
def hoistRename (fieldName : String) (oldNames : List String) (s : String) : String :=
  cond (strListContains oldNames s) (toUpperCamel (fieldName ++ "_" ++ s)) s

theorem rewriteFieldTypeNames_eq_map (old new : String)
    (fs : List FieldDescriptorProto) :
    rewriteFieldTypeNames old new fs =
      fs.map (fun f => { f with
        type_name := if (f.type_name == old) = true then new else f.type_name }) := by
  unfold rewriteFieldTypeNames
  apply List.map_congr_left
  intro f _
  by_cases h : (f.type_name == old) = true
  · simp [h]
  · simp [h]

theorem hoistRename_step (fieldName tn : String) (restNames : List String)
    (hfresh : toUpperCamel (fieldName ++ "_" ++ tn) ∉ restNames) :
    ∀ s, hoistRename fieldName restNames
        (if (s == tn) = true then toUpperCamel (fieldName ++ "_" ++ tn) else s) =
      hoistRename fieldName (tn :: restNames) s := by
  intro s
  by_cases hs : (s == tn) = true
  · rw [beq_iff_eq] at hs
    subst hs
    have hnc : strListContains restNames (toUpperCamel (fieldName ++ "_" ++ s)) = false := by
      rw [← Bool.not_eq_true]
      intro hc
      exact hfresh ((strListContains_iff _ _).mp hc)
    rw [if_pos (beq_self_eq_true s)]
    unfold hoistRename
    rw [hnc]
    have hcons : strListContains (s :: restNames) s = true := by
      show (if (s == s) = true then true else strListContains restNames s) = true
      rw [if_pos (beq_self_eq_true s)]
    rw [hcons]
    rfl
  · rw [Bool.not_eq_true] at hs
    rw [if_neg (by simp [hs])]
    unfold hoistRename
    have hcons : strListContains (tn :: restNames) s = strListContains restNames s := by
      show (if (s == tn) = true then true else strListContains restNames s) = _
      rw [if_neg (by simp [hs])]
    rw [hcons]

theorem hoistMsgLoop_spec (fieldName : String) :
    ∀ (ts : List DescriptorProto) (fs : List FieldDescriptorProto),
    (∀ s ∈ ts.map DescriptorProto.name,
        toUpperCamel (fieldName ++ "_" ++ s) ∉ ts.map DescriptorProto.name) →
    hoistMsgLoop fieldName ts fs =
      (fs.map (fun fl => { fl with type_name := hoistRename fieldName (ts.map DescriptorProto.name) fl.type_name }),
       ts.map (fun t => t.withName (toUpperCamel (fieldName ++ "_" ++ t.name)))) := by
  intro ts
  induction ts with
  | nil =>
    intro fs _
    unfold hoistMsgLoop
    have hid : fs.map (fun fl : FieldDescriptorProto => ({ fl with type_name := hoistRename fieldName (([] : List DescriptorProto).map DescriptorProto.name) fl.type_name } : FieldDescriptorProto)) = fs := by
      have : (fun fl : FieldDescriptorProto => ({ fl with type_name := hoistRename fieldName (([] : List DescriptorProto).map DescriptorProto.name) fl.type_name } : FieldDescriptorProto)) = id := by
        funext fl
        rfl
      rw [this, List.map_id]
    rw [hid, List.map_nil]
  | cons t rest ih =>
    intro fs h
    have hrest : ∀ s ∈ rest.map DescriptorProto.name,
        toUpperCamel (fieldName ++ "_" ++ s) ∉ rest.map DescriptorProto.name := by
      intro s hsmem hmem
      exact h s (List.mem_cons_of_mem _ hsmem) (List.mem_cons_of_mem _ hmem)
    have hfresh_t : toUpperCamel (fieldName ++ "_" ++ t.name) ∉
        rest.map DescriptorProto.name := by
      intro hmem
      exact h t.name (List.mem_cons_self _ _) (List.mem_cons_of_mem _ hmem)
    show (let newName := toUpperCamel (fieldName ++ "_" ++ t.name)
          let fs' := rewriteFieldTypeNames t.name newName fs
          let r := hoistMsgLoop fieldName rest fs'
          (r.1, t.withName newName :: r.2)) = _
    simp only
    rw [ih (rewriteFieldTypeNames t.name (toUpperCamel (fieldName ++ "_" ++ t.name)) fs) hrest]
    rw [rewriteFieldTypeNames_eq_map, List.map_map]
    refine Prod.ext ?_ ?_
    · simp only
      apply List.map_congr_left
      intro fl _
      show ({ fl with type_name := hoistRename fieldName (rest.map DescriptorProto.name) (if (fl.type_name == t.name) = true then toUpperCamel (fieldName ++ "_" ++ t.name) else fl.type_name) } : FieldDescriptorProto) = _
      rw [hoistRename_step fieldName t.name (rest.map DescriptorProto.name) hfresh_t
        fl.type_name]
      rfl
    · simp

theorem hoistEnumLoop_spec (fieldName : String) :
    ∀ (ts : List EnumDescriptorProto) (fs : List FieldDescriptorProto),
    (∀ s ∈ ts.map (·.name),
        toUpperCamel (fieldName ++ "_" ++ s) ∉ ts.map (·.name)) →
    hoistEnumLoop fieldName ts fs =
      (fs.map (fun fl => { fl with type_name := hoistRename fieldName (ts.map (·.name)) fl.type_name }),
       ts.map (fun t => { t with name := toUpperCamel (fieldName ++ "_" ++ t.name) })) := by
  intro ts
  induction ts with
  | nil =>
    intro fs _
    unfold hoistEnumLoop
    have hid : fs.map (fun fl : FieldDescriptorProto => ({ fl with type_name := hoistRename fieldName (([] : List EnumDescriptorProto).map (·.name)) fl.type_name } : FieldDescriptorProto)) = fs := by
      have : (fun fl : FieldDescriptorProto => ({ fl with type_name := hoistRename fieldName (([] : List EnumDescriptorProto).map (·.name)) fl.type_name } : FieldDescriptorProto)) = id := by
        funext fl
        rfl
      rw [this, List.map_id]
    rw [hid, List.map_nil]
  | cons t rest ih =>
    intro fs h
    have hrest : ∀ s ∈ rest.map (fun e : EnumDescriptorProto => e.name),
        toUpperCamel (fieldName ++ "_" ++ s) ∉
          rest.map (fun e : EnumDescriptorProto => e.name) := by
      intro s hsmem hmem
      exact h s (List.mem_cons_of_mem _ hsmem) (List.mem_cons_of_mem _ hmem)
    have hfresh_t : toUpperCamel (fieldName ++ "_" ++ t.name) ∉
        rest.map (fun e : EnumDescriptorProto => e.name) := by
      intro hmem
      exact h t.name (List.mem_cons_self _ _) (List.mem_cons_of_mem _ hmem)
    show (let newName := toUpperCamel (fieldName ++ "_" ++ t.name)
          let fs' := rewriteFieldTypeNames t.name newName fs
          let r := hoistEnumLoop fieldName rest fs'
          (r.1, { t with name := newName } :: r.2)) = _
    simp only
    rw [ih (rewriteFieldTypeNames t.name (toUpperCamel (fieldName ++ "_" ++ t.name)) fs) hrest]
    rw [rewriteFieldTypeNames_eq_map, List.map_map]
    refine Prod.ext ?_ ?_
    · simp only
      apply List.map_congr_left
      intro fl _
      show ({ fl with type_name := hoistRename fieldName (rest.map (fun e : EnumDescriptorProto => e.name)) (if (fl.type_name == t.name) = true then toUpperCamel (fieldName ++ "_" ++ t.name) else fl.type_name) } : FieldDescriptorProto) = _
      rw [hoistRename_step fieldName t.name (rest.map (fun e : EnumDescriptorProto => e.name)) hfresh_t fl.type_name]
      rfl
    · simp

theorem hoistRename_congr_names (fieldName : String) {ns1 ns2 : List String}
    (h : ∀ s, strListContains ns1 s = strListContains ns2 s) :
    hoistRename fieldName ns1 = hoistRename fieldName ns2 := by
  funext s
  unfold hoistRename
  rw [h s]

theorem hoistRename_comp (fieldName : String) (msgNames enumNames : List String)
    (hfresh : ∀ s ∈ msgNames ++ enumNames,
      toUpperCamel (fieldName ++ "_" ++ s) ∉ msgNames ++ enumNames) :
    ∀ s, hoistRename fieldName enumNames (hoistRename fieldName msgNames s) =
      hoistRename fieldName (msgNames ++ enumNames) s := by
  intro s
  unfold hoistRename
  rw [strListContains_append]
  by_cases h1 : strListContains msgNames s = true
  · have hmem : s ∈ msgNames ++ enumNames :=
      List.mem_append_left _ ((strListContains_iff _ _).mp h1)
    have hnc : strListContains enumNames (toUpperCamel (fieldName ++ "_" ++ s)) = false := by
      rw [← Bool.not_eq_true]
      intro hc
      exact hfresh s hmem
        (List.mem_append_right _ ((strListContains_iff _ _).mp hc))
    rw [h1, Bool.cond_true, hnc, Bool.cond_false, Bool.true_or, Bool.cond_true]
  · rw [Bool.not_eq_true] at h1
    rw [h1, Bool.cond_false, Bool.false_or]

/-- C7: for a map-entry submessage `d` produced for field `fieldName` that
itself contains nested message or enum drafts, the hoisting step empties the
entry's nested lists, renames every inner draft to
`UpperCamel(fieldName_oldName)` (messages popped first, then enums, each in
pop order), rewrites every entry field whose `type_name` named an inner draft
to the hoisted name, and the placement loop appends the hoisted drafts as
children of the enclosing message right after the entry.  (The freshness
hypothesis — no hoisted name collides with an old draft name — always holds
for the singleton nested lists `_convert_map` produces.) -/
theorem c7_map_entry_hoisting (fieldName : String) (d : DescriptorProto)
    (hfresh : ∀ s ∈ d.nested_type.map DescriptorProto.name ++ d.enum_type.map (·.name),
      toUpperCamel (fieldName ++ "_" ++ s) ∉
        d.nested_type.map DescriptorProto.name ++ d.enum_type.map (·.name)) :
    ((hoistEntry fieldName d).1.name = d.name ∧
     (hoistEntry fieldName d).1.nested_type = [] ∧
     (hoistEntry fieldName d).1.enum_type = [] ∧
     (hoistEntry fieldName d).2.1 =
       d.nested_type.reverse.map
         (fun t => t.withName (toUpperCamel (fieldName ++ "_" ++ t.name))) ∧
     (hoistEntry fieldName d).2.2 =
       d.enum_type.reverse.map
         (fun e => { e with name := toUpperCamel (fieldName ++ "_" ++ e.name) }) ∧
     (hoistEntry fieldName d).1.field =
       d.field.map (fun f => { f with type_name := hoistRename fieldName (d.nested_type.map DescriptorProto.name ++ d.enum_type.map (·.name)) f.type_name })) ∧
    (∀ (base : FieldDescriptorProto) (extra : Option OneofExtra) (acc : MsgAcc),
      d.map_entry = true →
      (placeField fieldName base extra (.nestedMsg d) acc).msgs =
        acc.msgs ++ [(hoistEntry fieldName d).1] ++ (hoistEntry fieldName d).2.1 ∧
      (placeField fieldName base extra (.nestedMsg d) acc).enums =
        acc.enums ++ (hoistEntry fieldName d).2.2) := by
  constructor
  · cases d with
    | mk n fs nt et od me =>
      simp only [DescriptorProto.nested_type_mk, DescriptorProto.enum_type_mk,
        DescriptorProto.field_mk, DescriptorProto.name_mk] at hfresh ⊢
      have hmsgSide : ∀ s ∈ nt.reverse.map DescriptorProto.name,
          toUpperCamel (fieldName ++ "_" ++ s) ∉ nt.reverse.map DescriptorProto.name := by
        intro s hsm hmem
        have hs1 : s ∈ nt.map DescriptorProto.name := by
          simpa using hsm
        have hs2 : toUpperCamel (fieldName ++ "_" ++ s) ∈ nt.map DescriptorProto.name := by
          simpa using hmem
        exact hfresh s (List.mem_append_left _ hs1) (List.mem_append_left _ hs2)
      have henumSide : ∀ s ∈ et.reverse.map (fun e : EnumDescriptorProto => e.name),
          toUpperCamel (fieldName ++ "_" ++ s) ∉
            et.reverse.map (fun e : EnumDescriptorProto => e.name) := by
        intro s hsm hmem
        have hs1 : s ∈ et.map (fun e : EnumDescriptorProto => e.name) := by
          simpa using hsm
        have hs2 : toUpperCamel (fieldName ++ "_" ++ s) ∈
            et.map (fun e : EnumDescriptorProto => e.name) := by
          simpa using hmem
        exact hfresh s (List.mem_append_right _ hs1) (List.mem_append_right _ hs2)
      have hrevContains : ∀ (l : List String) (s : String),
          strListContains l.reverse s = strListContains l s := by
        intro l s
        rcases h : strListContains l s with _ | _
        · rw [← Bool.not_eq_true] at h ⊢
          intro hc
          apply h
          rw [strListContains_iff] at hc ⊢
          simpa using hc
        · rw [strListContains_iff] at h ⊢
          simpa using h
      unfold hoistEntry
      simp only
      rw [hoistMsgLoop_spec fieldName nt.reverse fs hmsgSide]
      simp only
      rw [hoistEnumLoop_spec fieldName et.reverse _ henumSide]
      simp only [DescriptorProto.name_mk, DescriptorProto.nested_type_mk,
        DescriptorProto.enum_type_mk, DescriptorProto.field_mk]
      refine ⟨trivial, trivial, trivial, trivial, trivial, ?_⟩
      rw [List.map_map]
      apply List.map_congr_left
      intro fl _
      have hrev1 : hoistRename fieldName (nt.reverse.map DescriptorProto.name) =
          hoistRename fieldName (nt.map DescriptorProto.name) := by
        apply hoistRename_congr_names
        intro s
        have hmap : nt.reverse.map DescriptorProto.name =
            (nt.map DescriptorProto.name).reverse := by
          simp
        rw [hmap, hrevContains]
      have hrev2 : hoistRename fieldName (et.reverse.map (fun e : EnumDescriptorProto => e.name)) =
          hoistRename fieldName (et.map (fun e : EnumDescriptorProto => e.name)) := by
        apply hoistRename_congr_names
        intro s
        have hmap : et.reverse.map (fun e : EnumDescriptorProto => e.name) =
            (et.map (fun e : EnumDescriptorProto => e.name)).reverse := by
          simp
        rw [hmap, hrevContains]
      show ({ fl with type_name := hoistRename fieldName (et.reverse.map (fun e : EnumDescriptorProto => e.name)) (hoistRename fieldName (nt.reverse.map DescriptorProto.name) fl.type_name) } : FieldDescriptorProto) = _
      rw [hrev1, hrev2]
      rw [hoistRename_comp fieldName (nt.map DescriptorProto.name)
        (et.map (fun e : EnumDescriptorProto => e.name)) hfresh fl.type_name]
  · intro base extra acc hme
    cases d with
    | mk n fs nt et od me =>
      simp only [DescriptorProto.map_entry_mk] at hme
      subst hme
      cases extra with
      | none => exact ⟨by simp [placeField], by simp [placeField]⟩
      | some e => exact ⟨by simp [placeField], by simp [placeField]⟩

/-- The map-entry submessage produced for field `foo` of
`{values: {properties: {bar: {type: "string"}}}}`: the converted value draft
`Value` sits inside the entry before hoisting. -/
def c7Entry : DescriptorProto :=
  .mk "FooEntry"
    [{ name := "key", number := 1, type := 9 },
     { name := "value", number := 2, type := 11, type_name := "Value" }]
    [.mk "Value" [{ name := "bar", number := 1, label := 1, type := 9 }] [] [] [] false]
    [] [] true

/-- Concrete instantiation of C7: hoisting empties the entry, renames `Value`
to `FooValue` and rewrites the `value` field's reference. -/
theorem c7_map_entry_hoisting_witness :
    (hoistEntry "foo" c7Entry).1.nested_type = [] ∧
    (hoistEntry "foo" c7Entry).2.1 =
      [.mk "FooValue" [{ name := "bar", number := 1, label := 1, type := 9 }]
        [] [] [] false] ∧
    (hoistEntry "foo" c7Entry).1.field =
      [{ name := "key", number := 1, type := 9 },
       { name := "value", number := 2, type := 11, type_name := "FooValue" }] := by
  have h := c7_map_entry_hoisting "foo" c7Entry (by decide)
  refine ⟨h.1.2.1, ?_, ?_⟩
  · rw [h.1.2.2.2.1]
    rfl
  · rw [h.1.2.2.2.2.2]
    rfl

/-! ## C8 — unsupported-shape error -/

/-- A node matches one of the four shapes `_convert` dispatches on: a truthy
concrete type, a map (`values`), an enum, or a message (non-empty merged
property dict).  `additionalProperties` plays no role. -/
def matchesShape (entry : JTDNode) : Bool :=
  truthyType entry || entry.values.isSome || entry.enum.isSome ||
    !(mergedFields entry).isEmpty

theorem finishMessage_error {entry : JTDNode} {msgName : String} {acc : MsgAcc}
    {err : ConvErr} (h : finishMessage entry msgName acc = .error err) :
    err = .additionalPropertiesClash := by
  unfold finishMessage at h
  cases hap : entry.additionalProperties with
  | false =>
    rw [hap] at h
    simp at h
  | true =>
    rw [hap] at h
    simp only [if_true] at h
    unfold addStructField at h
    by_cases hclash : acc.fields.any (·.name == "additionalProperties") = true
    · rw [if_pos hclash] at h
      simp only [] at h
      injection h with h
      exact h.symm
    · rw [if_neg hclash] at h
      simp at h

/-- Whenever the recursive conversion raises the unsupported-entry error, the
node named in the error matches none of the four shapes. -/
theorem convert_unsupported_shape :
    ∀ fuel : Nat,
    (∀ entry name imps e, convert fuel entry name imps = .error (.unsupportedEntry e) →
      matchesShape e = false) ∧
    (∀ fields acc e, convertFields fuel fields acc = .error (.unsupportedEntry e) →
      matchesShape e = false) ∧
    (∀ members a b c imps e,
      convertOneofMembers fuel members a b c imps = .error (.unsupportedEntry e) →
      matchesShape e = false) := by
  intro fuel
  induction fuel with
  | zero =>
    refine ⟨?_, ?_, ?_⟩
    · intro entry name imps e h
      injection h with h
      cases h
    · intro fields acc e h
      injection h with h
      cases h
    · intro members a b c imps e h
      injection h with h
      cases h
  | succ fuel ih =>
    refine ⟨?_, ?_, ?_⟩
    · intro entry name imps e h
      unfold convert at h
      by_cases ht : truthyType entry = true
      · rw [if_pos ht] at h
        cases hty : entry.type with
        | none =>
          unfold truthyType at ht
          rw [hty] at ht
          cases ht
        | some t =>
          rw [hty] at h
          simp only [] at h
          unfold convertConcreteType at h
          cases hm : jtdTypeMapping t with
          | none =>
            rw [hm] at h
            simp only [] at h
            injection h with h
            cases h
          | some v =>
            rw [hm] at h
            cases v with
            | scalar c => exact Except.noConfusion h
            | wellKnown a b c => exact Except.noConfusion h
      · rw [if_neg ht] at h
        cases hv : entry.values with
        | some v =>
          rw [hv] at h
          have hjm : jtdTypeMapping "string" = some (.scalar 9) := rfl
          rw [hjm] at h
          simp only [] at h
          cases hc : convert fuel v "value" imps with
          | error e' =>
            rw [hc] at h
            simp only [] at h
            injection h with h
            subst h
            exact ih.1 v "value" imps e hc
          | ok p =>
            rw [hc] at h
            obtain ⟨valOut, imps'⟩ := p
            exact Except.noConfusion h
        | none =>
          rw [hv] at h
          cases he : entry.enum with
          | some names =>
            rw [he] at h
            exact Except.noConfusion h
          | none =>
            rw [he] at h
            by_cases hmf : (mergedFields entry).isEmpty = true
            · rw [if_pos hmf] at h
              injection h with h
              injection h with h
              subst h
              rw [Bool.not_eq_true] at ht
              unfold matchesShape
              rw [ht, hv, he, hmf]
              rfl
            · rw [if_neg hmf] at h
              cases hcf : convertFields fuel (mergedFields entry) { imps := imps } with
              | error e' =>
                rw [hcf] at h
                simp only [] at h
                injection h with h
                subst h
                exact ih.2.1 (mergedFields entry) { imps := imps } e hcf
              | ok acc =>
                rw [hcf] at h
                simp only [] at h
                cases hfm : finishMessage entry (toUpperCamel name) acc with
                | error e' =>
                  rw [hfm] at h
                  simp only [] at h
                  injection h with h
                  rw [finishMessage_error hfm] at h
                  cases h
                | ok p =>
                  rw [hfm] at h
                  obtain ⟨msg, imps'⟩ := p
                  exact Except.noConfusion h
    · intro fields acc e h
      cases fields with
      | nil => exact Except.noConfusion h
      | cons f rest =>
        obtain ⟨fname, fdef⟩ := f
        unfold convertFields at h
        by_cases hdisc : (fdef.discriminator.isSome && !fdef.mapping.isEmpty) = true
        · rw [if_pos hdisc] at h
          cases hom : convertOneofMembers fuel fdef.mapping acc.oneofs.length
              acc.fields.length 0 acc.imps with
          | error e' =>
            rw [hom] at h
            simp only [] at h
            injection h with h
            subst h
            exact ih.2.2 fdef.mapping acc.oneofs.length acc.fields.length 0 acc.imps e hom
          | ok p =>
            rw [hom] at h
            obtain ⟨results, imps'⟩ := p
            simp only [] at h
            exact ih.2.1 _ _ e h
        · rw [if_neg hdisc] at h
          simp only [] at h
          cases hc : convert fuel (fdef.elements.getD fdef) fname acc.imps with
          | error e' =>
            rw [hc] at h
            simp only [] at h
            injection h with h
            subst h
            exact ih.1 _ fname acc.imps e hc
          | ok p =>
            rw [hc] at h
            obtain ⟨res, imps'⟩ := p
            simp only [] at h
            exact ih.2.1 _ _ e h
    · intro members a b c imps e h
      cases members with
      | nil => exact Except.noConfusion h
      | cons m rest =>
        obtain ⟨mname, mdef⟩ := m
        unfold convertOneofMembers at h
        cases hc : convert fuel mdef mname imps with
        | error e' =>
          rw [hc] at h
          simp only [] at h
          injection h with h
          subst h
          exact ih.1 mdef mname imps e hc
        | ok p =>
          rw [hc] at h
          obtain ⟨res, imps'⟩ := p
          simp only [] at h
          cases hr : convertOneofMembers fuel rest a b (c + 1) imps' with
          | error e' =>
            rw [hr] at h
            simp only [] at h
            injection h with h
            subst h
            exact ih.2.2 rest a b (c + 1) imps' e hr
          | ok q =>
            rw [hr] at h
            obtain ⟨restResults, imps''⟩ := q
            exact Except.noConfusion h

/-- C8 (amended): a step of the recursive conversion raises the
unsupported-entry error naming the node if and only if the node matches none
of the four recognized shapes (concrete type, map, enum, message with
fields) — regardless of the additional-fields flag. -/
theorem c8_unsupported_shape_error_iff (fuel : Nat) (entry : JTDNode)
    (name : String) (imps : List String) :
    convert (fuel + 1) entry name imps = .error (.unsupportedEntry entry) ↔
      matchesShape entry = false := by
  constructor
  · intro h
    exact (convert_unsupported_shape (fuel + 1)).1 entry name imps entry h
  · intro h
    unfold matchesShape at h
    rw [Bool.or_eq_false_iff, Bool.or_eq_false_iff, Bool.or_eq_false_iff] at h
    obtain ⟨⟨⟨ht, hv⟩, he⟩, hmf⟩ := h
    have hv' : entry.values = none := by
      cases hvv : entry.values with
      | none => rfl
      | some v => rw [hvv] at hv; cases hv
    have he' : entry.enum = none := by
      cases hee : entry.enum with
      | none => rfl
      | some es => rw [hee] at he; cases he
    have hmf' : (mergedFields entry).isEmpty = true := by
      cases hm : (mergedFields entry).isEmpty with
      | true => rfl
      | false => rw [hm] at hmf; cases hmf
    unfold convert
    rw [if_neg (by rw [ht]; exact Bool.false_ne_true), hv', he', if_pos hmf']

/-- C8 counterexample: the node `{"additionalProperties": true}` matches none
of the four shapes and allows additional fields, yet the conversion raises the
unsupported-entry error — refuting the original claim that such a node is not
an error. -/
theorem c8_additional_properties_only_still_raises :
    (JTDNode.mk none none none [] [] true none none [] none).additionalProperties
      = true ∧
    convert 1 (.mk none none none [] [] true none none [] none) "Foo" [] =
      .error (.unsupportedEntry (.mk none none none [] [] true none none [] none)) :=
  ⟨rfl, rfl⟩

/-! ## C6 — optional-as-oneof -/

theorem listContains_iff_mem (l : List String) (s : String) :
    l.contains s = true ↔ s ∈ l := by
  simp

/-- Both fields of a map-entry submessage carry the proto default label 0
(the source builds them without a `label` kwarg). -/
theorem convertMapProto_field_label (name : String) (keyType : Nat)
    (valType : ConvertOutput) :
    ∀ f ∈ (convertMapProto name keyType valType).field, f.label = 0 := by
  intro f hf
  cases valType with
  | scalar c =>
    simp only [convertMapProto, DescriptorProto.field_mk, List.mem_cons,
      List.not_mem_nil, or_false] at hf
    rcases hf with rfl | rfl <;> rfl
  | extMessage a b c =>
    simp only [convertMapProto, DescriptorProto.field_mk, List.mem_cons,
      List.not_mem_nil, or_false] at hf
    rcases hf with rfl | rfl <;> rfl
  | extEnum a b c =>
    simp only [convertMapProto, DescriptorProto.field_mk, List.mem_cons,
      List.not_mem_nil, or_false] at hf
    rcases hf with rfl | rfl <;> rfl
  | nestedMsg d =>
    simp only [convertMapProto, DescriptorProto.field_mk, List.mem_cons,
      List.not_mem_nil, or_false] at hf
    rcases hf with rfl | rfl <;> rfl
  | nestedEnum e =>
    simp only [convertMapProto, DescriptorProto.field_mk, List.mem_cons,
      List.not_mem_nil, or_false] at hf
    rcases hf with rfl | rfl <;> rfl

/-- Behaviour of the optional-as-oneof pass: every output field whose name is
among the optional names and whose label is `LABEL_OPTIONAL` points (via
`oneof_index`) at a synthetic oneof named `_{name}` in the produced oneof
list. -/
theorem addOptionalOneofs_spec (optNames : List String) (numExplicit : Nat) :
    ∀ (fs : List FieldDescriptorProto) (k : Nat),
    ∀ f' ∈ (addOptionalOneofs optNames numExplicit fs k).1,
      optNames.contains f'.name = true → f'.label = 1 →
      ∃ jrel, (addOptionalOneofs optNames numExplicit fs k).2.get? jrel =
          some ("_" ++ f'.name) ∧
        f'.oneof_index = some (numExplicit + k + jrel) := by
  intro fs
  induction fs with
  | nil =>
    intro k f' hf'
    cases hf'
  | cons f rest ih =>
    intro k f' hf' hco hlab
    have hstepPos : (optNames.contains f.name && (f.label == 1)) = true →
        addOptionalOneofs optNames numExplicit (f :: rest) k =
          ({ f with oneof_index := some (numExplicit + k) } ::
            (addOptionalOneofs optNames numExplicit rest (k + 1)).1,
           ("_" ++ f.name) ::
            (addOptionalOneofs optNames numExplicit rest (k + 1)).2) := by
      intro hc
      show (if (optNames.contains f.name && (f.label == 1)) = true
            then ({ f with oneof_index := some (numExplicit + k) } ::
                (addOptionalOneofs optNames numExplicit rest (k + 1)).1,
              ("_" ++ f.name) ::
                (addOptionalOneofs optNames numExplicit rest (k + 1)).2)
            else (f :: (addOptionalOneofs optNames numExplicit rest k).1,
              (addOptionalOneofs optNames numExplicit rest k).2)) = _
      rw [if_pos hc]
    have hstepNeg : ¬ (optNames.contains f.name && (f.label == 1)) = true →
        addOptionalOneofs optNames numExplicit (f :: rest) k =
          (f :: (addOptionalOneofs optNames numExplicit rest k).1,
           (addOptionalOneofs optNames numExplicit rest k).2) := by
      intro hc
      show (if (optNames.contains f.name && (f.label == 1)) = true
            then ({ f with oneof_index := some (numExplicit + k) } ::
                (addOptionalOneofs optNames numExplicit rest (k + 1)).1,
              ("_" ++ f.name) ::
                (addOptionalOneofs optNames numExplicit rest (k + 1)).2)
            else (f :: (addOptionalOneofs optNames numExplicit rest k).1,
              (addOptionalOneofs optNames numExplicit rest k).2)) = _
      rw [if_neg hc]
    by_cases hcond : (optNames.contains f.name && (f.label == 1)) = true
    · rw [hstepPos hcond] at hf' ⊢
      rcases List.mem_cons.mp hf' with rfl | hmem
      · exact ⟨0, rfl, by simp⟩
      · obtain ⟨jrel, hj1, hj2⟩ := ih (k + 1) f' hmem hco hlab
        refine ⟨jrel + 1, ?_, ?_⟩
        · simpa using hj1
        · rw [hj2]
          congr 1
          omega
    · rw [hstepNeg hcond] at hf' ⊢
      rcases List.mem_cons.mp hf' with rfl | hmem
      · exfalso
        apply hcond
        rw [hco, hlab]
        rfl
      · exact ih k f' hmem hco hlab

theorem finishMessage_ok {entry : JTDNode} {msgName : String} {acc : MsgAcc}
    {msg : DescriptorProto} {imps2 : List String}
    (h : finishMessage entry msgName acc = .ok (msg, imps2)) :
    ∃ acc2 : MsgAcc,
      msg = .mk msgName
        (addOptionalOneofs (optionalFieldNames entry) acc2.oneofs.length acc2.fields 0).1
        acc2.msgs acc2.enums
        (acc2.oneofs ++
          (addOptionalOneofs (optionalFieldNames entry) acc2.oneofs.length acc2.fields 0).2)
        false := by
  unfold finishMessage at h
  cases hap : entry.additionalProperties with
  | false =>
    rw [hap] at h
    simp only [if_false] at h
    injection h with h
    exact ⟨acc, (congrArg Prod.fst h).symm⟩
  | true =>
    rw [hap] at h
    simp only [if_true] at h
    cases has : addStructField acc with
    | error e =>
      rw [has] at h
      exact Except.noConfusion h
    | ok acc2 =>
      rw [has] at h
      simp only [] at h
      injection h with h
      exact ⟨acc2, (congrArg Prod.fst h).symm⟩

/-- C6 (amended): in a produced message descriptor, every field whose name
the adapter reports optional and whose label is `LABEL_OPTIONAL` (so not
repeated; membership in an explicit oneof is not checked and its index is
overwritten) ends up pointing at a synthetic single-member oneof named
`_{fieldName}` in the message's oneof list. -/
theorem c6_optional_as_oneof (fuel : Nat) (entry : JTDNode) (name : String)
    (imps : List String) (msg : DescriptorProto) (imps' : List String)
    (hconv : convert fuel entry name imps = .ok (.nestedMsg msg, imps')) :
    ∀ f ∈ msg.field, f.name ∈ optionalFieldNames entry → f.label = 1 →
      ∃ j, msg.oneof_decl.get? j = some ("_" ++ f.name) ∧
        f.oneof_index = some j := by
  intro f hf hopt hlab
  cases fuel with
  | zero => exact Except.noConfusion hconv
  | succ fuel =>
    unfold convert at hconv
    by_cases ht : truthyType entry = true
    · rw [if_pos ht] at hconv
      cases hty : entry.type with
      | none =>
        unfold truthyType at ht
        rw [hty] at ht
        cases ht
      | some t =>
        rw [hty] at hconv
        simp only [] at hconv
        unfold convertConcreteType at hconv
        cases hm : jtdTypeMapping t with
        | none =>
          rw [hm] at hconv
          exact Except.noConfusion hconv
        | some v =>
          rw [hm] at hconv
          cases v with
          | scalar c =>
            simp only [] at hconv
            injection hconv with hconv
            injection hconv with h1 h2
            cases h1
          | wellKnown a b c =>
            simp only [] at hconv
            injection hconv with hconv
            injection hconv with h1 h2
            cases h1
    · rw [if_neg ht] at hconv
      cases hv : entry.values with
      | some v =>
        rw [hv] at hconv
        have hjm : jtdTypeMapping "string" = some (.scalar 9) := rfl
        rw [hjm] at hconv
        simp only [] at hconv
        cases hc : convert fuel v "value" imps with
        | error e =>
          rw [hc] at hconv
          exact Except.noConfusion hconv
        | ok p =>
          rw [hc] at hconv
          obtain ⟨valOut, impsv⟩ := p
          simp only [] at hconv
          injection hconv with hconv
          injection hconv with h1 h2
          injection h1 with h1
          subst h1
          have := convertMapProto_field_label name 9 valOut f hf
          rw [this] at hlab
          cases hlab
      | none =>
        rw [hv] at hconv
        cases he : entry.enum with
        | some names =>
          rw [he] at hconv
          injection hconv with hconv
          injection hconv with h1 h2
          cases h1
        | none =>
          rw [he] at hconv
          by_cases hmf : (mergedFields entry).isEmpty = true
          · rw [if_pos hmf] at hconv
            exact Except.noConfusion hconv
          · rw [if_neg hmf] at hconv
            cases hcf : convertFields fuel (mergedFields entry) { imps := imps } with
            | error e =>
              rw [hcf] at hconv
              exact Except.noConfusion hconv
            | ok acc =>
              rw [hcf] at hconv
              simp only [] at hconv
              cases hfm : finishMessage entry (toUpperCamel name) acc with
              | error e =>
                rw [hfm] at hconv
                exact Except.noConfusion hconv
              | ok p =>
                rw [hfm] at hconv
                obtain ⟨msg2, imps2⟩ := p
                simp only [] at hconv
                injection hconv with hconv
                injection hconv with h1 h2
                injection h1 with h1
                subst h1
                obtain ⟨acc2, hmsg⟩ := finishMessage_ok hfm
                subst hmsg
                simp only [DescriptorProto.field_mk] at hf
                simp only [DescriptorProto.oneof_decl_mk]
                obtain ⟨jrel, hj1, hj2⟩ :=
                  addOptionalOneofs_spec (optionalFieldNames entry)
                    acc2.oneofs.length acc2.fields 0 f hf
                    ((listContains_iff_mem _ _).mpr hopt) hlab
                refine ⟨acc2.oneofs.length + jrel, ?_, ?_⟩
                · rw [List.get?_append_right (by omega)]
                  simpa using hj1
                · rw [hj2]
                  simp

/-- The C6 counterexample input `{optionalProperties: {foo: {elements:
{type: "boolean"}}}}`: `foo` is reported optional and is in no explicit
oneof. -/
def c6Entry : JTDNode := .ofOptProps [("foo", .ofElements (.ofType "boolean"))]

/-- C6 counterexample: `foo` is declared optional and belongs to no explicit
oneof, yet — being repeated — the produced message has no oneofs at all and
`foo`'s oneof index is unset, contradicting the claim that every
optional-declared field outside an explicit oneof is wrapped in a synthetic
`_foo` oneof. -/
theorem c6_repeated_optional_not_wrapped :
    optionalFieldNames c6Entry = ["foo"] ∧
    convert 3 c6Entry "Foo" [] =
      .ok (.nestedMsg (.mk "Foo"
        [{ name := "foo", number := 1, label := 3, type := 8 }] [] [] [] false), []) :=
  ⟨rfl, rfl⟩

def c6wEntry : JTDNode :=
  .mk none none none [("a", .ofType "string")] [("b", .ofType "int32")]
    false none none [] none

def c6wMsg : DescriptorProto :=
  match convert 5 c6wEntry "O" [] with
  | .ok (.nestedMsg m, _) => m
  | _ => default

/-- Concrete instantiation of the amended C6: the optional scalar field `b`
is wrapped in the synthetic oneof `_b`. -/
theorem c6_optional_as_oneof_witness :
    ∃ j, c6wMsg.oneof_decl.get? j = some ("_" ++ "b") ∧
      ({ name := "b", number := 2, label := 1, type := 5,
         oneof_index := some 0 } : FieldDescriptorProto).oneof_index = some j :=
  c6_optional_as_oneof 5 c6wEntry "O" [] c6wMsg [] rfl
    { name := "b", number := 2, label := 1, type := 5, oneof_index := some 0 }
    (by decide) (by decide) rfl

/-! ## C3 / C9 infrastructure: field placement and numbering -/

/-- `placeField` appends exactly one field descriptor, whose number and name
come from the base kwargs or the oneof extra kwargs. -/
theorem placeField_fields_append (fieldName : String) (base : FieldDescriptorProto)
    (extra : Option OneofExtra) (nested : ConvertOutput) (acc : MsgAcc) :
    ∃ f : FieldDescriptorProto,
      (placeField fieldName base extra nested acc).fields = acc.fields ++ [f] ∧
      f.number = (match extra with | none => base.number | some e => e.number) ∧
      f.name = (match extra with | none => base.name | some e => e.lowerName) := by
  cases nested with
  | scalar c => cases extra <;> exact ⟨_, rfl, rfl, rfl⟩
  | extEnum a b c => cases extra <;> exact ⟨_, rfl, rfl, rfl⟩
  | extMessage a b c => cases extra <;> exact ⟨_, rfl, rfl, rfl⟩
  | nestedEnum e => cases extra <;> exact ⟨_, rfl, rfl, rfl⟩
  | nestedMsg d =>
    cases extra with
    | none =>
      by_cases hme : d.map_entry = true
      · refine ⟨{ base with type := 11, type_name := d.name, label := 3 }, ?_, rfl, rfl⟩
        simp [placeField, hme]
      · refine ⟨{ base with type := 11, type_name := d.name }, ?_, rfl, rfl⟩
        simp [placeField, hme]
    | some e =>
      by_cases hme : d.map_entry = true
      · refine ⟨{ base with
            oneof_index := some e.oneofIndex
            number := e.number
            name := e.lowerName
            type := 11
            type_name := d.name
            label := 3 }, ?_, rfl, rfl⟩
        simp [placeField, hme]
      · refine ⟨{ base with
            oneof_index := some e.oneofIndex
            number := e.number
            name := e.lowerName
            type := 11
            type_name := d.name }, ?_, rfl, rfl⟩
        simp [placeField, hme]

theorem addOptionalOneofs_fields_map (optNames : List String) (numExplicit : Nat) :
    ∀ (fs : List FieldDescriptorProto) (k : Nat),
      (addOptionalOneofs optNames numExplicit fs k).1.map
          (fun f => (f.name, f.number, f.label, f.type, f.type_name)) =
        fs.map (fun f => (f.name, f.number, f.label, f.type, f.type_name)) := by
  intro fs
  induction fs with
  | nil => intro k; rfl
  | cons f rest ih =>
    intro k
    show ((if (optNames.contains f.name && (f.label == 1)) = true
        then ({ f with oneof_index := some (numExplicit + k) } ::
            (addOptionalOneofs optNames numExplicit rest (k + 1)).1,
          ("_" ++ f.name) :: (addOptionalOneofs optNames numExplicit rest (k + 1)).2)
        else (f :: (addOptionalOneofs optNames numExplicit rest k).1,
          (addOptionalOneofs optNames numExplicit rest k).2)).1.map
          (fun f => (f.name, f.number, f.label, f.type, f.type_name))) = _
    by_cases hcond : (optNames.contains f.name && (f.label == 1)) = true
    · rw [if_pos hcond]
      simp only [List.map_cons, ih (k + 1)]
    · rw [if_neg hcond]
      simp only [List.map_cons, ih k]

theorem addOptionalOneofs_get (optNames : List String) (numExplicit : Nat) :
    ∀ (fs : List FieldDescriptorProto) (k i : Nat) (f : FieldDescriptorProto),
      fs.get? i = some f →
      ∃ oi, (addOptionalOneofs optNames numExplicit fs k).1.get? i =
        some { f with oneof_index := oi } := by
  intro fs
  induction fs with
  | nil =>
    intro k i f hf
    cases i <;> exact Option.noConfusion hf
  | cons g rest ih =>
    intro k i f hf
    have hstep : ∀ k', addOptionalOneofs optNames numExplicit (g :: rest) k' =
        if (optNames.contains g.name && (g.label == 1)) = true
        then ({ g with oneof_index := some (numExplicit + k') } ::
            (addOptionalOneofs optNames numExplicit rest (k' + 1)).1,
          ("_" ++ g.name) :: (addOptionalOneofs optNames numExplicit rest (k' + 1)).2)
        else (g :: (addOptionalOneofs optNames numExplicit rest k').1,
          (addOptionalOneofs optNames numExplicit rest k').2) := by
      intro k'
      rfl
    cases i with
    | zero =>
      injection hf with hf
      subst hf
      by_cases hcond : (optNames.contains g.name && (g.label == 1)) = true
      · rw [hstep k, if_pos hcond]
        exact ⟨some (numExplicit + k), rfl⟩
      · rw [hstep k, if_neg hcond]
        exact ⟨g.oneof_index, rfl⟩
    | succ i =>
      simp only [List.get?_cons_succ] at hf
      by_cases hcond : (optNames.contains g.name && (g.label == 1)) = true
      · rw [hstep k, if_pos hcond]
        simpa using ih (k + 1) i f hf
      · rw [hstep k, if_neg hcond]
        simpa using ih k i f hf

/-- All members of a oneof mapping with implicit numbering get sequential
numbers continuing from the enclosing field count. -/
theorem convertOneofMembers_numbers :
    ∀ (fuel : Nat) (members : List (String × JTDNode)) (oneofIdx numFields memberIdx : Nat)
      (imps : List String) (results : List (ConvertOutput × OneofExtra))
      (imps' : List String),
    convertOneofMembers fuel members oneofIdx numFields memberIdx imps =
      .ok (results, imps') →
    (∀ m ∈ members, m.2.fieldNumber = none) →
    results.map (fun r => r.2.number) =
      List.range' (numFields + memberIdx + 1) results.length ∧
    results.length = members.length := by
  intro fuel
  induction fuel with
  | zero =>
    intro members oneofIdx numFields memberIdx imps results imps' h
    exact absurd h (by simp [convertOneofMembers])
  | succ fuel ih =>
    intro members oneofIdx numFields memberIdx imps results imps' h himp
    cases members with
    | nil =>
      unfold convertOneofMembers at h
      injection h with h
      have h1 := congrArg Prod.fst h
      simp only [] at h1
      subst h1
      exact ⟨rfl, rfl⟩
    | cons m rest =>
      obtain ⟨mname, mdef⟩ := m
      unfold convertOneofMembers at h
      cases hc : convert fuel mdef mname imps with
      | error e =>
        rw [hc] at h
        exact Except.noConfusion h
      | ok p =>
        rw [hc] at h
        obtain ⟨res, imps1⟩ := p
        simp only [] at h
        cases hr : convertOneofMembers fuel rest oneofIdx numFields (memberIdx + 1) imps1 with
        | error e =>
          rw [hr] at h
          exact Except.noConfusion h
        | ok q =>
          rw [hr] at h
          obtain ⟨restResults, imps2⟩ := q
          simp only [] at h
          injection h with h
          have h1 := congrArg Prod.fst h
          simp only [] at h1
          subst h1
          have hnum : mdef.fieldNumber = none :=
            himp (mname, mdef) (List.mem_cons_self _ _)
          obtain ⟨hmap, hlen⟩ := ih rest oneofIdx numFields (memberIdx + 1) imps1
            restResults imps2 hr (fun m hm => himp m (List.mem_cons_of_mem _ hm))
          constructor
          · simp only [List.map_cons, List.length_cons]
            rw [hmap]
            unfold getFieldNumber
            rw [hnum]
            simp only [Option.getD_none]
            rw [List.range'_succ]
            congr 1
          · simp [hlen]

theorem range'_one_snoc (s n : Nat) :
    List.range' s (n + 1) = List.range' s n ++ [s + n] := by
  induction n generalizing s with
  | zero => rfl
  | succ n ih =>
    rw [List.range'_succ, ih (s + 1), List.range'_succ]
    simp only [List.cons_append]
    have h : s + 1 + n = s + (n + 1) := by omega
    rw [h]

theorem range'_one_append (s m n : Nat) :
    List.range' s m ++ List.range' (s + m) n = List.range' s (m + n) := by
  induction m generalizing s with
  | zero => simp [List.range']
  | succ m ih =>
    rw [List.range'_succ, List.cons_append]
    have h1 : s + (m + 1) = (s + 1) + m := by omega
    rw [h1, ih (s + 1)]
    have h2 : m + 1 + n = (m + n) + 1 := by omega
    rw [h2, List.range'_succ]

/-- The optional-as-oneof pass only touches `oneof_index`: the field numbers
are unchanged. -/
theorem addOptionalOneofs_numbers (optNames : List String) (numExplicit : Nat) :
    ∀ (fs : List FieldDescriptorProto) (k : Nat),
      (addOptionalOneofs optNames numExplicit fs k).1.map (·.number) =
        fs.map (·.number) := by
  intro fs
  induction fs with
  | nil => intro k; rfl
  | cons f rest ih =>
    intro k
    show ((if (optNames.contains f.name && (f.label == 1)) = true
        then ({ f with oneof_index := some (numExplicit + k) } ::
            (addOptionalOneofs optNames numExplicit rest (k + 1)).1,
          ("_" ++ f.name) :: (addOptionalOneofs optNames numExplicit rest (k + 1)).2)
        else (f :: (addOptionalOneofs optNames numExplicit rest k).1,
          (addOptionalOneofs optNames numExplicit rest k).2)).1.map (·.number)) = _
    by_cases hcond : (optNames.contains f.name && (f.label == 1)) = true
    · rw [if_pos hcond]
      simp only [List.map_cons, ih (k + 1)]
    · rw [if_neg hcond]
      simp only [List.map_cons, ih k]

theorem addOptionalOneofs_length (optNames : List String) (numExplicit : Nat)
    (fs : List FieldDescriptorProto) (k : Nat) :
    (addOptionalOneofs optNames numExplicit fs k).1.length = fs.length := by
  have h := congrArg List.length (addOptionalOneofs_numbers optNames numExplicit fs k)
  simpa using h

/-- Folding the oneof-member placements appends exactly the member field
numbers to the accumulated numbers. -/
theorem foldPlace_numbers (fname : String) (base : FieldDescriptorProto) :
    ∀ (results : List (ConvertOutput × OneofExtra)) (acc : MsgAcc),
      ((results.foldl (fun a r => placeField fname base (some r.2) r.1 a) acc).fields.map
          (·.number)) =
        acc.fields.map (·.number) ++ results.map (fun r => r.2.number) := by
  intro results
  induction results with
  | nil => intro acc; simp
  | cons r rest ih =>
    intro acc
    rw [List.foldl_cons, ih]
    obtain ⟨f, hf, hnum, _⟩ := placeField_fields_append fname base (some r.2) r.1 acc
    rw [hf]
    simp [hnum]

/-- The field-loop invariant of `_convert_message`: with no explicit field
numbers anywhere, the accumulated field numbers stay exactly `1..len`. -/
theorem convertFields_numbers :
    ∀ (fuel : Nat) (fields : List (String × JTDNode)) (acc acc' : MsgAcc),
      convertFields fuel fields acc = .ok acc' →
      (fields.all fun p => p.2.fieldNumber == none &&
        p.2.mapping.all fun m => m.2.fieldNumber == none) = true →
      acc.fields.map (·.number) = List.range' 1 acc.fields.length →
      acc'.fields.map (·.number) = List.range' 1 acc'.fields.length := by
  intro fuel
  induction fuel with
  | zero =>
    intro fields acc acc' h
    exact absurd h (by simp [convertFields])
  | succ fuel ih =>
    intro fields acc acc' h hall hinv
    cases fields with
    | nil =>
      unfold convertFields at h
      injection h with h
      rw [← h]
      exact hinv
    | cons p rest =>
      obtain ⟨fname, fdef⟩ := p
      rw [List.all_cons, Bool.and_eq_true] at hall
      obtain ⟨hhead, hrest⟩ := hall
      rw [Bool.and_eq_true] at hhead
      obtain ⟨hfn, hmapn⟩ := hhead
      have hfn' : fdef.fieldNumber = none := by simpa using hfn
      unfold convertFields at h
      by_cases hdisc : (fdef.discriminator.isSome && !fdef.mapping.isEmpty) = true
      · rw [if_pos hdisc] at h
        cases hom : convertOneofMembers fuel fdef.mapping acc.oneofs.length
            acc.fields.length 0 acc.imps with
        | error e =>
          rw [hom] at h
          exact Except.noConfusion h
        | ok q =>
          rw [hom] at h
          obtain ⟨results, imps'⟩ := q
          simp only [] at h
          have hmem : ∀ m ∈ fdef.mapping, m.2.fieldNumber = none := by
            intro m hm
            have := (List.all_eq_true.mp hmapn) m hm
            simpa using this
          obtain ⟨hmap, hlen⟩ := convertOneofMembers_numbers fuel fdef.mapping
            acc.oneofs.length acc.fields.length 0 acc.imps results imps' hom hmem
          refine ih rest _ acc' h hrest ?_
          have hB := foldPlace_numbers fname
            { name := fname
              number := getFieldNumber acc.fields.length fdef
              label := if isRepeatedField fdef then 3 else 1 }
            results
            { acc with
                oneofs := acc.oneofs ++ [fdef.discriminator.getD ""]
                imps := imps' }
          have hXlen :
              ((results.foldl (fun a r => placeField fname
                  { name := fname
                    number := getFieldNumber acc.fields.length fdef
                    label := if isRepeatedField fdef then 3 else 1 }
                  (some r.2) r.1 a)
                { acc with
                    oneofs := acc.oneofs ++ [fdef.discriminator.getD ""]
                    imps := imps' }).fields).length =
              acc.fields.length + results.length := by
            have := congrArg List.length hB
            simpa using this
          rw [hB, hXlen]
          show acc.fields.map (·.number) ++ results.map (fun r => r.2.number) = _
          rw [hinv, hmap]
          have he : acc.fields.length + 0 + 1 = 1 + acc.fields.length := by omega
          rw [he, range'_one_append]
      · rw [if_neg hdisc] at h
        simp only [] at h
        cases hc : convert fuel (fdef.elements.getD fdef) fname acc.imps with
        | error e =>
          rw [hc] at h
          exact Except.noConfusion h
        | ok q =>
          rw [hc] at h
          obtain ⟨res, imps'⟩ := q
          simp only [] at h
          refine ih rest _ acc' h hrest ?_
          obtain ⟨f, hf, hnum, _⟩ := placeField_fields_append fname
            { name := fname
              number := getFieldNumber acc.fields.length fdef
              label := if isRepeatedField fdef then 3 else 1 }
            none res { acc with imps := imps' }
          rw [hf]
          have hfnum : f.number = acc.fields.length + 1 := by
            simp [hnum, getFieldNumber, hfn']
          show (acc.fields ++ [f]).map (·.number) =
            List.range' 1 (acc.fields ++ [f]).length
          simp only [List.map_append, List.map_cons, List.map_nil,
            List.length_append, List.length_cons, List.length_nil]
          rw [hinv, hfnum, range'_one_snoc 1 acc.fields.length]
          have hcomm : 1 + acc.fields.length = acc.fields.length + 1 := by omega
          rw [hcomm]

/-- Message assembly keeps sequential numbering: the synthetic
`additionalProperties` field (if any) is numbered one past the built fields
and the optional-as-oneof pass leaves numbers alone. -/
theorem finishMessage_numbers {entry : JTDNode} {msgName : String} {acc : MsgAcc}
    {msg : DescriptorProto} {imps2 : List String}
    (h : finishMessage entry msgName acc = .ok (msg, imps2))
    (hinv : acc.fields.map (·.number) = List.range' 1 acc.fields.length) :
    msg.field.map (·.number) = List.range' 1 msg.field.length := by
  unfold finishMessage at h
  cases hap : entry.additionalProperties with
  | false =>
    rw [hap] at h
    simp only [if_false] at h
    injection h with h
    injection h with h1 h2
    subst h1
    simp only [DescriptorProto.field_mk]
    rw [addOptionalOneofs_numbers, addOptionalOneofs_length]
    exact hinv
  | true =>
    rw [hap] at h
    simp only [if_true] at h
    unfold addStructField at h
    by_cases hclash : (acc.fields.any (·.name == "additionalProperties")) = true
    · rw [if_pos hclash] at h
      simp only [] at h
      exact Except.noConfusion h
    · rw [if_neg hclash] at h
      simp only [] at h
      injection h with h
      injection h with h1 h2
      subst h1
      simp only [DescriptorProto.field_mk]
      rw [addOptionalOneofs_numbers, addOptionalOneofs_length]
      simp only [List.map_append, List.map_cons, List.map_nil,
        List.length_append, List.length_cons, List.length_nil]
      rw [hinv, range'_one_snoc 1 acc.fields.length]
      have hcomm : 1 + acc.fields.length = acc.fields.length + 1 := by omega
      rw [hcomm]

/-- No field definition of the node carries an explicit `metadata.field_number`
(neither the merged property definitions nor the members of a discriminator
mapping). -/
def noExplicitNumbers (entry : JTDNode) : Bool :=
  (mergedFields entry).all fun p =>
    p.2.fieldNumber == none &&
      p.2.mapping.all fun m => m.2.fieldNumber == none

/-- C3: for every node the converter turns into a message draft whose field
definitions supply no explicit field numbers, the produced fields are numbered
exactly `1..N` in adapter-declared order, counting fields already placed
(including the fields produced by oneof expansion and the synthetic
`additionalProperties` field). -/
theorem c3_field_numbering (fuel : Nat) (entry : JTDNode) (name : String)
    (imps : List String) (msg : DescriptorProto) (imps' : List String)
    (hconv : convert fuel entry name imps = .ok (.nestedMsg msg, imps'))
    (hnum : noExplicitNumbers entry = true) :
    msg.field.map (·.number) = List.range' 1 msg.field.length := by
  cases fuel with
  | zero => exact Except.noConfusion hconv
  | succ fuel =>
    unfold convert at hconv
    by_cases ht : truthyType entry = true
    · rw [if_pos ht] at hconv
      cases hty : entry.type with
      | none =>
        unfold truthyType at ht
        rw [hty] at ht
        cases ht
      | some t =>
        rw [hty] at hconv
        simp only [] at hconv
        unfold convertConcreteType at hconv
        cases hm : jtdTypeMapping t with
        | none =>
          rw [hm] at hconv
          exact Except.noConfusion hconv
        | some v =>
          rw [hm] at hconv
          cases v with
          | scalar c =>
            simp only [] at hconv
            injection hconv with hconv
            injection hconv with h1 h2
            cases h1
          | wellKnown a b c =>
            simp only [] at hconv
            injection hconv with hconv
            injection hconv with h1 h2
            cases h1
    · rw [if_neg ht] at hconv
      cases hv : entry.values with
      | some v =>
        rw [hv] at hconv
        have hjm : jtdTypeMapping "string" = some (.scalar 9) := rfl
        rw [hjm] at hconv
        simp only [] at hconv
        cases hc : convert fuel v "value" imps with
        | error e =>
          rw [hc] at hconv
          exact Except.noConfusion hconv
        | ok p =>
          rw [hc] at hconv
          obtain ⟨valOut, impsv⟩ := p
          simp only [] at hconv
          injection hconv with hconv
          injection hconv with h1 h2
          injection h1 with h1
          subst h1
          cases valOut <;> rfl
      | none =>
        rw [hv] at hconv
        cases he : entry.enum with
        | some names =>
          rw [he] at hconv
          injection hconv with hconv
          injection hconv with h1 h2
          cases h1
        | none =>
          rw [he] at hconv
          by_cases hmf : (mergedFields entry).isEmpty = true
          · rw [if_pos hmf] at hconv
            exact Except.noConfusion hconv
          · rw [if_neg hmf] at hconv
            cases hcf : convertFields fuel (mergedFields entry) { imps := imps } with
            | error e =>
              rw [hcf] at hconv
              exact Except.noConfusion hconv
            | ok acc =>
              rw [hcf] at hconv
              simp only [] at hconv
              cases hfm : finishMessage entry (toUpperCamel name) acc with
              | error e =>
                rw [hfm] at hconv
                exact Except.noConfusion hconv
              | ok p =>
                rw [hfm] at hconv
                obtain ⟨msg2, imps2⟩ := p
                simp only [] at hconv
                injection hconv with hconv
                injection hconv with h1 h2
                injection h1 with h1
                subst h1
                have hall : ((mergedFields entry).all fun p =>
                    p.2.fieldNumber == none &&
                      p.2.mapping.all fun m => m.2.fieldNumber == none) = true := hnum
                have hinv := convertFields_numbers fuel (mergedFields entry)
                  { imps := imps } acc hcf hall rfl
                exact finishMessage_numbers hfm hinv

/-- The C3 witness schema: three declared fields, the middle one a
discriminator oneof with two members, none carrying an explicit number. -/
def c3wEntry : JTDNode :=
  .mk none none none
    [("a", .ofType "boolean"),
     ("u", .mk none none none [] [] false none (some "kind")
        [("x", .ofType "string"), ("y", .ofType "int32")] none),
     ("c", .ofType "string")]
    [] false none none [] none

def c3wMsg : DescriptorProto :=
  match convert 8 c3wEntry "Obj" [] with
  | .ok (.nestedMsg m, _) => m
  | _ => default

/-- Concrete instantiation of C3: the produced fields `a`, `x`, `y`, `c` are
numbered `1, 2, 3, 4`. -/
theorem c3_field_numbering_witness :
    c3wMsg.field.map (·.number) = List.range' 1 c3wMsg.field.length :=
  c3_field_numbering 8 c3wEntry "Obj" [] c3wMsg [] rfl rfl

/-- C9: for a message-shaped node allowing additional fields, after the
declared fields are built the converter either raises the clash error (when a
built field is already named `additionalProperties`) or appends exactly one
more field named `additionalProperties`, of the well-known Struct message
type, numbered one past the count of fields placed so far (only its
`oneof_index` may still be touched by the optional-as-oneof pass). -/
theorem c9_additional_properties_field (fuel : Nat) (entry : JTDNode)
    (name : String) (imps : List String) (acc : MsgAcc)
    (ht : truthyType entry = false)
    (hv : entry.values = none) (he : entry.enum = none)
    (hmf : (mergedFields entry).isEmpty = false)
    (hap : entry.additionalProperties = true)
    (hcf : convertFields fuel (mergedFields entry) { imps := imps } = .ok acc) :
    (acc.fields.any (·.name == "additionalProperties") = true →
      convert (fuel + 1) entry name imps = .error .additionalPropertiesClash) ∧
    (acc.fields.any (·.name == "additionalProperties") = false →
      ∃ (msg : DescriptorProto) (imps' : List String) (oi : Option Nat),
        convert (fuel + 1) entry name imps = .ok (.nestedMsg msg, imps') ∧
        msg.field.length = acc.fields.length + 1 ∧
        msg.field.get? acc.fields.length = some
          { name := "additionalProperties", number := acc.fields.length + 1,
            type := 11, label := 1, type_name := "google.protobuf.Struct",
            oneof_index := oi }) := by
  have hstep : convert (fuel + 1) entry name imps =
      match finishMessage entry (toUpperCamel name) acc with
      | .error e => .error e
      | .ok (msg, imps') => .ok (.nestedMsg msg, imps') := by
    unfold convert
    rw [if_neg (by simp [ht]), hv, he]
    simp only []
    rw [if_neg (by simp [hmf]), hcf]
  constructor
  · intro hclash
    have hfm : finishMessage entry (toUpperCamel name) acc =
        .error .additionalPropertiesClash := by
      unfold finishMessage
      rw [hap]
      simp only [if_true]
      unfold addStructField
      rw [if_pos hclash]
    rw [hstep, hfm]
  · intro hclash
    have hclash' : ¬(acc.fields.any (·.name == "additionalProperties") = true) := by
      simp [hclash]
    have hfm : finishMessage entry (toUpperCamel name) acc =
        .ok (.mk (toUpperCamel name)
          (addOptionalOneofs (optionalFieldNames entry) acc.oneofs.length
            (acc.fields ++
              [{ name := "additionalProperties", number := acc.fields.length + 1,
                 type := 11, label := 1,
                 type_name := "google.protobuf.Struct" }]) 0).1
          acc.msgs acc.enums
          (acc.oneofs ++
            (addOptionalOneofs (optionalFieldNames entry) acc.oneofs.length
              (acc.fields ++
                [{ name := "additionalProperties", number := acc.fields.length + 1,
                   type := 11, label := 1,
                   type_name := "google.protobuf.Struct" }]) 0).2)
          false,
          addImport acc.imps "google/protobuf/struct.proto") := by
      unfold finishMessage
      rw [hap]
      simp only [if_true]
      unfold addStructField
      rw [if_neg hclash']
    have hg : (acc.fields ++
        [({ name := "additionalProperties", number := acc.fields.length + 1,
            type := 11, label := 1,
            type_name := "google.protobuf.Struct" } : FieldDescriptorProto)]).get?
          acc.fields.length =
        some { name := "additionalProperties", number := acc.fields.length + 1,
               type := 11, label := 1,
               type_name := "google.protobuf.Struct" } := by
      rw [List.get?_append_right (le_refl _)]
      simp
    obtain ⟨oi, hoi⟩ := addOptionalOneofs_get (optionalFieldNames entry)
      acc.oneofs.length _ 0 acc.fields.length _ hg
    refine ⟨.mk (toUpperCamel name)
        (addOptionalOneofs (optionalFieldNames entry) acc.oneofs.length
          (acc.fields ++
            [{ name := "additionalProperties", number := acc.fields.length + 1,
               type := 11, label := 1,
               type_name := "google.protobuf.Struct" }]) 0).1
        acc.msgs acc.enums
        (acc.oneofs ++
          (addOptionalOneofs (optionalFieldNames entry) acc.oneofs.length
            (acc.fields ++
              [{ name := "additionalProperties", number := acc.fields.length + 1,
                 type := 11, label := 1,
                 type_name := "google.protobuf.Struct" }]) 0).2)
        false,
      addImport acc.imps "google/protobuf/struct.proto", oi, ?_, ?_, ?_⟩
    · rw [hstep, hfm]
    · simp only [DescriptorProto.field_mk]
      rw [addOptionalOneofs_length]
      simp
    · simp only [DescriptorProto.field_mk]
      exact hoi

/-- The C9 witness schema: one declared boolean field plus
`additionalProperties: true`. -/
def c9wEntry : JTDNode :=
  .mk none none none [("a", .ofType "boolean")] [] true none none [] none

def c9wAcc : MsgAcc :=
  match convertFields 3 (mergedFields c9wEntry) { imps := [] } with
  | .ok a => a
  | _ => {}

/-- Concrete instantiation of C9: the struct-typed `additionalProperties`
field is appended with number 2 after the single declared field. -/
theorem c9_additional_properties_field_witness :
    ∃ (msg : DescriptorProto) (imps' : List String) (oi : Option Nat),
      convert (3 + 1) c9wEntry "Obj" [] = .ok (.nestedMsg msg, imps') ∧
      msg.field.length = c9wAcc.fields.length + 1 ∧
      msg.field.get? c9wAcc.fields.length = some
        { name := "additionalProperties", number := c9wAcc.fields.length + 1,
          type := 11, label := 1, type_name := "google.protobuf.Struct",
          oneof_index := oi } :=
  (c9_additional_properties_field 3 c9wEntry "Obj" [] c9wAcc
    rfl rfl rfl rfl rfl rfl).2 rfl

end PyToProto
